import Mathlib

/-!
Verification of the intent-routing assistant repository.

Shallow embedding conventions used throughout this file:
* Python strings are Lean `String`s; character-level operations work on `List Char`
  (Python indexing/slicing is by code point, which matches Lean `Char` lists).
* Python's `str.lower`/`str.upper` are modelled for the ASCII and Latin-1 letter
  ranges, which covers every string the repository manipulates.
* Calls into external services (the sqlglot parser, the chat model, the Tavily
  client, the HTTP weather API) are oracle parameters of the embedded functions:
  an `Except`/`Option` argument standing for the call's outcome.
* A raised Python exception is an `Except.error` carrying a descriptive message.
-/

/-- Python `\s` / `str.strip` whitespace characters (ASCII range). -/
def pyIsWs (c : Char) : Bool :=
  c = ' ' || c = '\t' || c = '\n' || c = '\r' || c = '\x0b' || c = '\x0c'

/-- Python `str.lower` on one character (ASCII A-Z and Latin-1 À-Þ, excluding ×). -/
def pyLowerChar (c : Char) : Char :=
  let v := c.toNat
  if 65 ≤ v ∧ v ≤ 90 then Char.ofNat (v + 32)
  else if 192 ≤ v ∧ v ≤ 222 ∧ v ≠ 215 then Char.ofNat (v + 32)
  else c

/-- Python `str.upper` on one character (ASCII a-z and Latin-1 à-þ, excluding ÷). -/
def pyUpperChar (c : Char) : Char :=
  let v := c.toNat
  if 97 ≤ v ∧ v ≤ 122 then Char.ofNat (v - 32)
  else if 224 ≤ v ∧ v ≤ 254 ∧ v ≠ 247 then Char.ofNat (v - 32)
  else c

/-- Python `str.strip()` on a character list. -/
def pyStripL (l : List Char) : List Char :=
  ((l.dropWhile pyIsWs).reverse.dropWhile pyIsWs).reverse

/-- Python `str.strip()`. -/
def pyStrip (s : String) : String := String.mk (pyStripL s.toList)

/-- Python `str.upper()`. -/
def pyUpper (s : String) : String := String.mk (s.toList.map pyUpperChar)

/-- Python `str.lower()`. -/
def pyLower (s : String) : String := String.mk (s.toList.map pyLowerChar)

/-- `listStarts p l` holds when `p` is a leading segment of `l`. -/
def listStarts : List Char → List Char → Bool
  | [], _ => true
  | _ :: _, [] => false
  | a :: p, b :: l => a = b && listStarts p l

/-- `strHasL pat l`: the segment `pat` occurs somewhere inside `l`. -/
def strHasL (pat : List Char) : List Char → Bool
  | [] => pat.isEmpty
  | c :: rest => listStarts pat (c :: rest) || strHasL pat rest

/-- Python's `pat in hay` substring test. -/
def strHas (hay pat : String) : Bool := strHasL pat.toList hay.toList

namespace SqlDb

/-! Embedding of `src/tools/sql_db.py`. -/

/-- The `FORBIDDEN_KEYWORDS` tuple of `sql_db.py`, in source order. -/
def FORBIDDEN_KEYWORDS : List String :=
  ["DROP", "TRUNCATE", "ALTER", "CREATE", "INSERT", "UPDATE", "DELETE",
   "GRANT", "REVOKE", "EXECUTE", "EXEC", "--", "/*", "*/"]

/-- Embedding of `_validate_sql`.  The call `sqlglot.parse_one(query_clean,
dialect="postgres")` together with the `isinstance(parsed, Select)` test is an
oracle parameter `parse`: `.error e` models the parser raising with message `e`,
`.ok b` models a successful parse whose root is a `Select` node iff `b = true`.
Returns the `(allowed, error_message)` pair of the source. -/
def validate_sql (parse : String → Except String Bool) (query : String) :
    Bool × String :=
  match FORBIDDEN_KEYWORDS.find? (fun kw => strHas (pyUpper (pyStrip query)) kw) with
  | some kw => (false, "Query contains forbidden keyword or pattern: " ++ kw)
  | none =>
    match parse (pyStrip query) with
    | .error e => (false, "Invalid SQL: " ++ e)
    | .ok b => if b then (true, "") else (false, "Only SELECT queries are allowed.")

/-- The allowed flag of `_validate_sql` is `true` exactly when no forbidden keyword
occurs in the upper-cased stripped query and the parser oracle reports a SELECT root. -/
theorem validate_sql_allowed_iff (parse : String → Except String Bool) (q : String) :
    (validate_sql parse q).1 = true ↔
      (∀ kw ∈ FORBIDDEN_KEYWORDS, strHas (pyUpper (pyStrip q)) kw = false) ∧
      parse (pyStrip q) = .ok true := by
  rcases hf : FORBIDDEN_KEYWORDS.find? (fun kw => strHas (pyUpper (pyStrip q)) kw) with - | kw
  · have hnone := List.find?_eq_none.mp hf
    rcases hp : parse (pyStrip q) with e | b
    · have hv : validate_sql parse q = (false, "Invalid SQL: " ++ e) := by
        unfold validate_sql; rw [hf, hp]
      rw [hv]
      constructor
      · intro h; exact absurd h (by simp)
      · rintro ⟨-, hok⟩; exact absurd hok (by simp)
    · cases b
      · have hv : validate_sql parse q = (false, "Only SELECT queries are allowed.") := by
          unfold validate_sql; rw [hf, hp]; rfl
        rw [hv]
        constructor
        · intro h; exact absurd h (by simp)
        · rintro ⟨-, hok⟩; exact absurd hok (by simp)
      · have hv : validate_sql parse q = (true, "") := by
          unfold validate_sql; rw [hf, hp]; rfl
        rw [hv]
        refine ⟨fun _ => ⟨fun kw hkw => ?_, rfl⟩, fun _ => rfl⟩
        simpa using hnone kw hkw
  · have hv : validate_sql parse q = (false, "Query contains forbidden keyword or pattern: " ++ kw) := by
      unfold validate_sql; rw [hf]
    rw [hv]
    constructor
    · intro h; exact absurd h (by simp)
    · rintro ⟨hall, -⟩
      have hkw := List.find?_some hf
      rw [hall kw (List.mem_of_find?_eq_some hf)] at hkw
      exact absurd hkw (by simp)

/-- When `_validate_sql` allows a query, the reason string is empty. -/
theorem validate_sql_allowed_reason (parse : String → Except String Bool) (q : String)
    (h : (validate_sql parse q).1 = true) : (validate_sql parse q).2 = "" := by
  rcases hf : FORBIDDEN_KEYWORDS.find? (fun kw => strHas (pyUpper (pyStrip q)) kw) with - | kw
  · rcases hp : parse (pyStrip q) with e | b
    · have hv : validate_sql parse q = (false, "Invalid SQL: " ++ e) := by
        unfold validate_sql; rw [hf, hp]
      rw [hv] at h; exact absurd h (by simp)
    · cases b
      · have hv : validate_sql parse q = (false, "Only SELECT queries are allowed.") := by
          unfold validate_sql; rw [hf, hp]; rfl
        rw [hv] at h; exact absurd h (by simp)
      · have hv : validate_sql parse q = (true, "") := by
          unfold validate_sql; rw [hf, hp]; rfl
        rw [hv]
  · have hv : validate_sql parse q = (false, "Query contains forbidden keyword or pattern: " ++ kw) := by
      unfold validate_sql; rw [hf]
    rw [hv] at h; exact absurd h (by simp)

end SqlDb

section SqlClaims

open SqlDb

/-- C1: `_validate_sql(query)` returns `allowed = true` (with empty reason) iff the
upper-cased stripped text contains none of the forbidden substrings, the text
parses, and the parse root is a SELECT statement; `validate("SELECT 1")` is
allowed (assuming the parser parses it as a SELECT), while `DROP TABLE x`,
`DELETE FROM x`, `UPDATE x SET y=1` and `TRUNCATE TABLE x` are each rejected
with a reason naming the forbidden operation. -/
theorem sql_guard_validate_spec :
    (∀ parse q,
      ((validate_sql parse q).1 = true ↔
        (∀ kw ∈ FORBIDDEN_KEYWORDS, strHas (pyUpper (pyStrip q)) kw = false) ∧
        parse (pyStrip q) = .ok true) ∧
      ((validate_sql parse q).1 = true → (validate_sql parse q).2 = "")) ∧
    (∀ parse, parse (pyStrip "SELECT 1") = .ok true →
      validate_sql parse "SELECT 1" = (true, "")) ∧
    (∀ parse,
      validate_sql parse "DROP TABLE x" =
        (false, "Query contains forbidden keyword or pattern: DROP") ∧
      validate_sql parse "DELETE FROM x" =
        (false, "Query contains forbidden keyword or pattern: DELETE") ∧
      validate_sql parse "UPDATE x SET y=1" =
        (false, "Query contains forbidden keyword or pattern: UPDATE") ∧
      validate_sql parse "TRUNCATE TABLE x" =
        (false, "Query contains forbidden keyword or pattern: TRUNCATE")) := by
  refine ⟨fun parse q => ⟨validate_sql_allowed_iff parse q, validate_sql_allowed_reason parse q⟩,
    fun parse h => ?_, fun parse => ⟨rfl, rfl, rfl, rfl⟩⟩
  unfold validate_sql
  rw [show FORBIDDEN_KEYWORDS.find?
      (fun kw => strHas (pyUpper (pyStrip "SELECT 1")) kw) = none from rfl]
  rw [h]
  rfl

/-- Witness for C1: instantiating the parser oracle with one that parses
everything as a SELECT, `validate("SELECT 1")` is allowed with empty reason. -/
theorem sql_guard_validate_spec_witness :
    validate_sql (fun _ => Except.ok true) "SELECT 1" = (true, "") :=
  sql_guard_validate_spec.2.1 (fun _ => Except.ok true) rfl

/-- C10: the guard is not complete for the pure-SELECT allow-list: the read-only
query `SELECT created_at FROM t` is rejected by the substring stage (its
upper-cased text contains `CREATE` inside the identifier `created_at`) even when
the parser oracle parses it as a pure SELECT. -/
theorem sql_guard_rejects_created_at :
    ∀ parse : String → Except String Bool,
      parse "SELECT created_at FROM t" = .ok true →
      (validate_sql parse "SELECT created_at FROM t").1 = false ∧
      (validate_sql parse "SELECT created_at FROM t").2 =
        "Query contains forbidden keyword or pattern: CREATE" := by
  intro parse _
  exact ⟨rfl, rfl⟩

/-- Witness for C10 at a concrete parser oracle. -/
theorem sql_guard_rejects_created_at_witness :
    (validate_sql (fun _ => Except.ok true) "SELECT created_at FROM t").1 = false :=
  (sql_guard_rejects_created_at (fun _ => Except.ok true) rfl).1

end SqlClaims

/-- Python `str.startswith`. -/
def pyStartsWith (s pre : String) : Bool := listStarts pre.toList s.toList

/-- Python `str.endswith`. -/
def pyEndsWith (s suf : String) : Bool := listStarts suf.toList.reverse s.toList.reverse

namespace Persona

/-! Embedding of `src/graph/persona.py`. -/

/-- `AI_IDENTITY["name"]` — the pinned assistant identity constant. -/
def AI_IDENTITY_name : String := "Atlas"

/-- `AI_IDENTITY["role"]`. -/
def AI_IDENTITY_role : String := "assistente de IA especializado"

/-- `AI_IDENTITY["capabilities"]`. -/
def AI_IDENTITY_capabilities : List String :=
  ["pesquisar informações na web", "consultar documentos internos",
   "acessar bancos de dados", "fornecer previsões do tempo"]

/-- The keys of the `CONVERSATION_PATTERNS` mapping, in iteration order: exactly
the pattern tags `detect_conversation_type` can return. -/
def CONVERSATION_PATTERN_TAGS : List String :=
  ["name_pt", "name_en", "greeting_pt", "greeting_en",
   "capabilities_pt", "capabilities_en", "thanks_pt", "thanks_en"]

/-- Embedding of `get_conversational_response(pattern_type, user_query)`: the
canned, language-matched persona reply for a detected pattern tag.  The
`user_query` argument is accepted and ignored, as in the source. -/
def get_conversational_response (pattern_type user_query : String) : String :=
  let is_portuguese := pyEndsWith pattern_type "_pt"
  if pyStartsWith pattern_type "name" then
    if is_portuguese then
      "Meu nome é " ++ AI_IDENTITY_name ++ "! Sou um " ++ AI_IDENTITY_role ++
        " e estou aqui para ajudar você com diversas tarefas. Como posso ajudar?"
    else
      "My name is " ++ AI_IDENTITY_name ++ "! I'm an " ++ AI_IDENTITY_role ++
        " and I'm here to help you with various tasks. How can I assist you?"
  else if pyStartsWith pattern_type "greeting" then
    if is_portuguese then
      "Olá! Eu sou " ++ AI_IDENTITY_name ++ ", seu assistente de IA. " ++
        "Estou aqui para ajudar! O que você gostaria de saber?"
    else
      "Hello! I'm " ++ AI_IDENTITY_name ++ ", your AI assistant. " ++
        "I'm here to help! What would you like to know?"
  else if pyStartsWith pattern_type "capabilities" then
    if is_portuguese then
      let caps := String.intercalate ", " AI_IDENTITY_capabilities
      "Sou " ++ AI_IDENTITY_name ++ ", e posso ajudar você a:\n• " ++
        String.replace caps ", " "\n• " ++ "\n\nO que você precisa?"
    else
      let caps := String.intercalate ", "
        ["search the web", "query internal documents",
         "access databases", "provide weather forecasts"]
      "I'm " ++ AI_IDENTITY_name ++ ", and I can help you:\n• " ++
        String.replace caps ", " "\n• " ++ "\n\nWhat do you need?"
  else if pyStartsWith pattern_type "thanks" then
    if is_portuguese then "De nada! Estou aqui sempre que precisar. 😊"
    else "You're welcome! I'm here whenever you need. 😊"
  else
    if is_portuguese then "Olá! Sou " ++ AI_IDENTITY_name ++ ". Como posso ajudar você hoje?"
    else "Hello! I'm " ++ AI_IDENTITY_name ++ ". How can I help you today?"

end Persona

section PersonaClaims

open Persona

/-- C4 counterexample: `thanks_pt` is a tag `detect_conversation_type` can return,
yet its canned reply does not contain the pinned identity string "Atlas". -/
theorem conversational_thanks_reply_lacks_identity :
    "thanks_pt" ∈ CONVERSATION_PATTERN_TAGS ∧
    strHas (get_conversational_response "thanks_pt" "Obrigado") AI_IDENTITY_name = false := by
  exact ⟨by decide, rfl⟩

/-- C4 (amended): the pinned identity constant is the literal "Atlas", and for
every pattern tag `detect_conversation_type` can return other than the thanks
tags, and every query, the reply contains that identity string.  (The thanks
replies are fixed polite strings that do not name the assistant.) -/
theorem conversational_reply_contains_identity :
    AI_IDENTITY_name = "Atlas" ∧
    ∀ tag ∈ CONVERSATION_PATTERN_TAGS, pyStartsWith tag "thanks" = false →
      ∀ q, strHas (get_conversational_response tag q) AI_IDENTITY_name = true := by
  refine ⟨rfl, ?_⟩
  intro tag htag hnt q
  simp only [CONVERSATION_PATTERN_TAGS, List.mem_cons, List.not_mem_nil, or_false] at htag
  rcases htag with rfl | rfl | rfl | rfl | rfl | rfl | rfl | rfl
  · rfl
  · rfl
  · rfl
  · rfl
  · rfl
  · rfl
  · exact absurd hnt (by decide)
  · exact absurd hnt (by decide)

/-- Witness for C4 (amended) at the `name_pt` tag and a concrete query. -/
theorem conversational_reply_contains_identity_witness :
    strHas (get_conversational_response "name_pt" "Qual seu nome?") AI_IDENTITY_name = true :=
  conversational_reply_contains_identity.2 "name_pt" (by decide) (by decide) "Qual seu nome?"

end PersonaClaims

namespace Nodes

/-! Embedding of `src/graph/nodes.py` (planner_node, memory_node, _extract_city). -/

/-- A LangChain chat message: the constructors mirror `HumanMessage`,
`AIMessage` and `SystemMessage`. -/
inductive Msg where
  | human (content : String)
  | ai (content : String)
  | system (content : String)
deriving DecidableEq

/-- `isinstance(m, HumanMessage)`. -/
def Msg.isHuman : Msg → Bool
  | .human _ => true
  | _ => false

/-- The message's `content` attribute. -/
def Msg.content : Msg → String
  | .human c => c
  | .ai c => c
  | .system c => c

/-- `next((m for m in reversed(messages) if isinstance(m, HumanMessage)), None)`. -/
def lastHuman (messages : List Msg) : Option Msg :=
  messages.reverse.find? Msg.isHuman

/-- The dict returned by `planner_node`, extended with `llm_called`, which
records whether the branch-3 classification call to the model was issued. -/
structure PlannerDelta where
  need_web_fallback : Bool
  is_conversational : Bool
  is_weather_query : Bool
  llm_called : Bool
deriving DecidableEq

/-- The `weather_keywords` list of `planner_node`, in source order. -/
def weather_keywords : List String :=
  ["clima", "weather", "temperatura", "temperature", "tempo", "forecast",
   "previsão", "chuva", "rain", "frio", "quente", "hot", "cold", "sol", "sun",
   "nublado", "cloudy", "vento", "wind", "°c", "celsius", "fahrenheit"]


/-- First 500 characters of the stripped latest user message — the `query`
local of `planner_node` (`(last.content or "").strip()[:500]`). -/
def plannerQuery (content : String) : String :=
  String.mk ((pyStripL content.toList).take 500)

/-- Branch 3 of `planner_node`: the single LLM classification call.  `llm` is
the call's outcome (`none` = the call raised); on a reply, `need_web_fallback`
is set iff the stripped upper-cased reply mentions `WEB_FALLBACK` or
`FALLBACK`; on failure it defaults to `true`. -/
def plannerBranch3 (llm : Option String) : PlannerDelta :=
  match llm with
  | none => ⟨true, false, false, true⟩
  | some reply =>
    ⟨strHas (pyUpper (pyStrip reply)) "WEB_FALLBACK" ||
      strHas (pyUpper (pyStrip reply)) "FALLBACK", false, false, true⟩

/-- Branches 1–3 of `planner_node` applied to the non-empty query. -/
def plannerOnQuery (detect : String → Option String) (llm : Option String)
    (query : String) : PlannerDelta :=
  match detect query with
  | some _ => ⟨false, true, false, false⟩
  | none =>
    if weather_keywords.any (fun kw => strHas (pyLower query) kw) then
      ⟨false, false, true, false⟩
    else plannerBranch3 llm

/-- Embedding of `planner_node`.  `detect` is the imported
`persona.detect_conversation_type`; `llm` models the branch-3 classification
call; the extra `llm_called` field records whether that call was issued. -/
def planner_node (detect : String → Option String) (llm : Option String)
    (messages : List Msg) : PlannerDelta :=
  match lastHuman messages with
  | none => ⟨true, false, false, false⟩
  | some last =>
    if last.content = "" then ⟨true, false, false, false⟩
    else plannerOnQuery detect llm (plannerQuery last.content)

/-- The dict returned by `memory_node`: it carries only a `context` entry (there
is no `messages` key in the returned delta). -/
structure MemoryDelta where
  context : String
deriving DecidableEq

/-- Embedding of `memory_node`: computes the last-20-message window and returns
a context summary string holding that window's size. -/
def memory_node (messages : List Msg) : MemoryDelta :=
  ⟨toString (if messages.length > 20 then
      messages.drop (messages.length - 20) else messages).length ++
    " messages in context"⟩

/-- LangGraph merges a node's returned delta into the graph state with the
`add_messages` reducer: the delta's message list (absent ⇒ empty) is appended to
the stored history; no other delta key touches `messages`. -/
def add_messages (messages newMessages : List Msg) : List Msg :=
  messages ++ newMessages

/-- The conversation history retained in state after `memory_node` runs: its
delta has no `messages` key, so the reducer appends nothing. -/
def retained_after_memory_node (messages : List Msg) : List Msg :=
  add_messages messages []

end Nodes

section PlannerClaims

open Nodes

/-- At most one routing flag is set by branch 3. -/
theorem plannerBranch3_flags (llm : Option String) :
    (plannerBranch3 llm).need_web_fallback.toNat +
    (plannerBranch3 llm).is_conversational.toNat +
    (plannerBranch3 llm).is_weather_query.toNat ≤ 1 := by
  rcases llm with - | reply
  · decide
  · rcases hb : strHas (pyUpper (pyStrip reply)) "WEB_FALLBACK" ||
      strHas (pyUpper (pyStrip reply)) "FALLBACK" <;>
    simp [plannerBranch3, hb]

/-- At most one routing flag is set on any non-empty query. -/
theorem plannerOnQuery_flags (detect : String → Option String) (llm : Option String)
    (q : String) :
    (plannerOnQuery detect llm q).need_web_fallback.toNat +
    (plannerOnQuery detect llm q).is_conversational.toNat +
    (plannerOnQuery detect llm q).is_weather_query.toNat ≤ 1 := by
  rcases hd : detect q with - | tag
  · rcases hkw : weather_keywords.any fun kw => strHas (pyLower q) kw
    · have := plannerBranch3_flags llm
      simpa [plannerOnQuery, hd, hkw] using this
    · simp [plannerOnQuery, hd, hkw]
  · simp [plannerOnQuery, hd]

/-- At most one routing flag is set by `planner_node`. -/
theorem planner_node_flags (detect : String → Option String) (llm : Option String)
    (messages : List Msg) :
    (planner_node detect llm messages).need_web_fallback.toNat +
    (planner_node detect llm messages).is_conversational.toNat +
    (planner_node detect llm messages).is_weather_query.toNat ≤ 1 := by
  rcases hl : lastHuman messages with - | m
  · simp [planner_node, hl]
  · by_cases hc : m.content = ""
    · simp [planner_node, hl, hc]
    · have := plannerOnQuery_flags detect llm (plannerQuery m.content)
      simpa [planner_node, hl, hc] using this

/-- C2: `planner_node` follows the first-match-wins decision order: missing or
empty latest user message ⇒ flag delta `(true, false, false)` with no model
call; a conversational pattern match ⇒ `(false, true, false)` with no model
call; otherwise a weather keyword substring match ⇒ `(false, false, true)` with
no model call; otherwise exactly one classification call is issued and
`need_web_fallback` is true iff the call fails or the reply mentions fallback;
in every case at most one routing flag is set. -/
theorem planner_node_routing :
    ∀ (detect : String → Option String) (llm : Option String) (messages : List Msg),
      (lastHuman messages = none →
        planner_node detect llm messages = ⟨true, false, false, false⟩) ∧
      (∀ m, lastHuman messages = some m →
        (m.content = "" →
          planner_node detect llm messages = ⟨true, false, false, false⟩) ∧
        (m.content ≠ "" →
          (∀ tag, detect (plannerQuery m.content) = some tag →
            planner_node detect llm messages = ⟨false, true, false, false⟩) ∧
          (detect (plannerQuery m.content) = none →
            weather_keywords.any
              (fun kw => strHas (pyLower (plannerQuery m.content)) kw) = true →
            planner_node detect llm messages = ⟨false, false, true, false⟩) ∧
          (detect (plannerQuery m.content) = none →
            weather_keywords.any
              (fun kw => strHas (pyLower (plannerQuery m.content)) kw) = false →
            (planner_node detect llm messages).llm_called = true ∧
            (planner_node detect llm messages).is_conversational = false ∧
            (planner_node detect llm messages).is_weather_query = false ∧
            ((planner_node detect llm messages).need_web_fallback = true ↔
              llm = none ∨ ∃ reply, llm = some reply ∧
                (strHas (pyUpper (pyStrip reply)) "WEB_FALLBACK" ||
                 strHas (pyUpper (pyStrip reply)) "FALLBACK") = true)))) ∧
      ((planner_node detect llm messages).need_web_fallback.toNat +
       (planner_node detect llm messages).is_conversational.toNat +
       (planner_node detect llm messages).is_weather_query.toNat ≤ 1) := by
  intro detect llm messages
  have hbr3 : ∀ o, (plannerBranch3 o).llm_called = true ∧
      (plannerBranch3 o).is_conversational = false ∧
      (plannerBranch3 o).is_weather_query = false ∧
      ((plannerBranch3 o).need_web_fallback = true ↔
        o = none ∨ ∃ reply, o = some reply ∧
          (strHas (pyUpper (pyStrip reply)) "WEB_FALLBACK" ||
           strHas (pyUpper (pyStrip reply)) "FALLBACK") = true) := by
    intro o
    cases o with
    | none => exact ⟨rfl, rfl, rfl, by simp [plannerBranch3]⟩
    | some reply =>
      refine ⟨rfl, rfl, rfl, ?_⟩
      show (strHas (pyUpper (pyStrip reply)) "WEB_FALLBACK" ||
        strHas (pyUpper (pyStrip reply)) "FALLBACK") = true ↔ _
      constructor
      · intro h; exact Or.inr ⟨reply, rfl, h⟩
      · rintro (h | ⟨r, hr, hh⟩)
        · exact absurd h (by simp)
        · cases hr; exact hh
  refine ⟨?_, ?_, ?_⟩
  · intro h
    unfold planner_node
    rw [h]
  · intro m hm
    have hv : planner_node detect llm messages =
        if m.content = "" then ⟨true, false, false, false⟩
        else plannerOnQuery detect llm (plannerQuery m.content) := by
      unfold planner_node
      rw [hm]
    constructor
    · intro hempty
      rw [hv, if_pos hempty]
    · intro hne
      rw [hv, if_neg hne]
      refine ⟨?_, ?_, ?_⟩
      · intro tag htag
        unfold plannerOnQuery
        rw [htag]
      · intro hdet hkw
        unfold plannerOnQuery
        rw [hdet, hkw]
        rfl
      · intro hdet hkw
        unfold plannerOnQuery
        rw [hdet, hkw]
        show (plannerBranch3 llm).llm_called = true ∧ _
        exact hbr3 llm
  · exact planner_node_flags detect llm messages

/-- Witness for C2: a concrete run through the weather-keyword branch — the
message "clima em Londrina" routes to the weather flag with no model call. -/
theorem planner_node_routing_witness :
    planner_node (fun _ => none) none [Msg.human "clima em Londrina"] =
      ⟨false, false, true, false⟩ :=
  ((((planner_node_routing (fun _ => none) none
      [Msg.human "clima em Londrina"]).2.1
        (Msg.human "clima em Londrina") rfl).2 (by decide)).2.1) rfl (by decide)

end PlannerClaims

section MemoryClaims

open Nodes

/-- C8 counterexample: after `memory_node` runs on a 21-message history, the
history retained for the next turn still has 21 messages — the stored message
sequence is not trimmed to the last 20. -/
theorem memory_node_retains_full_history :
    (retained_after_memory_node (List.replicate 21 (Msg.human "oi"))).length = 21 ∧
    ¬ (retained_after_memory_node (List.replicate 21 (Msg.human "oi"))).length ≤ 20 := by
  constructor <;> simp [retained_after_memory_node, add_messages]

/-- C8 (amended): `memory_node` leaves the stored message history untouched (the
full history survives across turns); it only returns a `context` summary string
reporting the size of the last-20-message window, `min(length, 20)`. -/
theorem memory_node_window_report :
    ∀ messages : List Msg,
      retained_after_memory_node messages = messages ∧
      (memory_node messages).context =
        toString (min messages.length 20) ++ " messages in context" := by
  intro messages
  constructor
  · simp [retained_after_memory_node, add_messages]
  · unfold memory_node
    by_cases h : messages.length > 20
    · rw [if_pos h]
      have : (messages.drop (messages.length - 20)).length = min messages.length 20 := by
        rw [List.length_drop]
        omega
      rw [this]
    · rw [if_neg h]
      have : messages.length = min messages.length 20 := by omega
      rw [← this]

end MemoryClaims

namespace WeatherApi

/-! Embedding of `_get_daily_minmax` from `src/tools/weather_api.py`.

The forecast payload is arbitrary JSON, modelled by `JsonVal`; a raised Python
exception is `Except.error`.  Dates: `datetime.fromtimestamp(ts,
tz=timezone.utc).strftime("%Y-%m-%d")` yields equal date strings exactly for
timestamps with the same `⌊ts / 86400⌋`, so local calendar dates (and the
`target_date` argument) are epoch-day numbers `ℤ`.  The `target_date = None`
default (which reads the current clock) is outside the embedding: `target` is
always supplied.  Temperatures are `ℚ` (JSON numbers). -/

/-- A JSON value as handled by the Python code. -/
inductive JsonVal where
  | null
  | bool (b : Bool)
  | num (q : ℚ)
  | str (s : String)
  | arr (l : List JsonVal)
  | obj (fields : List (String × JsonVal))

/-- Python truthiness of a JSON value (`if not forecasts`). -/
def pyTruthy : JsonVal → Bool
  | .null => false
  | .bool b => b
  | .num q => decide (q ≠ 0)
  | .str s => decide (s ≠ "")
  | .arr l => !l.isEmpty
  | .obj l => !l.isEmpty

/-- Python `dict.get(key, dflt)` on an object's field list (keys are unique in
every payload the code receives, so first-match lookup is dict lookup). -/
def jsonGet (fields : List (String × JsonVal)) (key : String) (dflt : JsonVal) : JsonVal :=
  match fields.find? (fun kv => kv.1 = key) with
  | some kv => kv.2
  | none => dflt

/-- Numeric view of a JSON value under Python arithmetic (`bool` is an `int`
subclass). `none` means the value is not a number, so `+`/`min`/`round` raise. -/
def pyNum : JsonVal → Option ℚ
  | .num q => some q
  | .bool true => some 1
  | .bool false => some 0
  | _ => none

/-- The local calendar date of a UNIX timestamp, as an epoch-day number:
`datetime.fromtimestamp(ts, tz=utc).strftime("%Y-%m-%d")` is injective on
⌊ts/86400⌋. -/
def epochDay (ts : ℚ) : ℤ := Int.floor (ts / 86400)

/-- Python 3 `round(q)`: round half to even (banker's rounding). -/
def pyRoundInt (q : ℚ) : ℤ :=
  let f := Int.floor q
  let r := q - f
  if r < 1/2 then f
  else if 1/2 < r then f + 1
  else if Even f then f else f + 1

/-- Python `round(q, 1)`. -/
def pyRound1 (q : ℚ) : ℚ := (pyRoundInt (10 * q) : ℚ) / 10

/-- `forecast_data.get("city", {}).get("timezone", 0)`: the inner `.get` raises
`AttributeError` when the `"city"` value is not a dict. -/
def tzOffsetVal (forecast_data : List (String × JsonVal)) : Except String JsonVal :=
  match jsonGet forecast_data "city" (.obj []) with
  | .obj c => .ok (jsonGet c "timezone" (.num 0))
  | _ => .error "AttributeError: object has no attribute get"

/-- One iteration of the `for entry in forecasts:` loop of `_get_daily_minmax`:
read `dt` (default 0), add the timezone offset (raising `TypeError` on
non-numbers), compare local dates, and on a match return the two readings
`main.get("temp_min", main.get("temp"))` and `main.get("temp_max",
main.get("temp"))`.  Non-dict entries and non-dict `main` values raise
`AttributeError` at `.get`. -/
def entryTemps (tzv : JsonVal) (target : ℤ) (e : JsonVal) : Except String (List JsonVal) :=
  match e with
  | .obj fields =>
    match pyNum (jsonGet fields "dt" (.num 0)), pyNum tzv with
    | some dtq, some tzq =>
      if epochDay (dtq + tzq) = target then
        match jsonGet fields "main" (.obj []) with
        | .obj m => .ok [jsonGet m "temp_min" (jsonGet m "temp" .null),
            jsonGet m "temp_max" (jsonGet m "temp" .null)]
        | _ => .error "AttributeError: object has no attribute get"
      else .ok []
    | _, _ => .error "TypeError: unsupported operand types for +"
  | _ => .error "AttributeError: object has no attribute get"

/-- The whole loop: temperatures collected entry by entry, in order; the first
raising entry aborts (propagates the exception). -/
def collectTemps (tzv : JsonVal) (target : ℤ) : List JsonVal → Except String (List JsonVal)
  | [] => .ok []
  | e :: rest =>
    match entryTemps tzv target e with
    | .ok ts =>
      match collectTemps tzv target rest with
      | .ok rs => .ok (ts ++ rs)
      | .error err => .error err
    | .error err => .error err

/-- `temps = [t for t in temps if t is not None]`. -/
def nonNullTemps (l : List JsonVal) : List JsonVal :=
  l.filter (fun t => match t with | .null => false | _ => true)

/-- All collected temperatures as numbers; `none` when some temperature is not
a number, in which case `min`/`max`/`round` raise `TypeError`. -/
def allNums : List JsonVal → Option (List ℚ)
  | [] => some []
  | t :: ts =>
    match pyNum t, allNums ts with
    | some q, some qs => some (q :: qs)
    | _, _ => none

/-- `min` of a nonempty list. -/
def listMin (q : ℚ) (qs : List ℚ) : ℚ := qs.foldl min q

/-- `max` of a nonempty list. -/
def listMax (q : ℚ) (qs : List ℚ) : ℚ := qs.foldl max q

/-- The tail of `_get_daily_minmax` after the emptiness and timezone steps:
collect, drop `None`s, and return the rounded overall min and max (`None`s when
nothing was collected). -/
def dailyFromEntries (tzv : JsonVal) (target : ℤ) (entries : List JsonVal) :
    Except String (Option ℚ × Option ℚ) :=
  match collectTemps tzv target entries with
  | .error e => .error e
  | .ok temps =>
    match allNums (nonNullTemps temps) with
    | some [] => .ok (none, none)
    | some (q :: qs) =>
      .ok (some (pyRound1 (listMin q qs)), some (pyRound1 (listMax q qs)))
    | none => .error "TypeError: unorderable or unroundable temperatures"

/-- Embedding of `_get_daily_minmax(forecast_data, target_date)`.  Returns
`.ok (temp_min, temp_max)` for a normal return and `.error` when the Python
code raises. -/
def get_daily_minmax (forecast_data : List (String × JsonVal)) (target : ℤ) :
    Except String (Option ℚ × Option ℚ) :=
  if pyTruthy (jsonGet forecast_data "list" (.arr [])) = false then .ok (none, none)
  else
    match tzOffsetVal forecast_data with
    | .error e => .error e
    | .ok tzv =>
      match jsonGet forecast_data "list" (.arr []) with
      | .arr entries => dailyFromEntries tzv target entries
      | _ => .error "TypeError: forecast entries are not a list of dicts"

/-- `r.isOk = false` means the Python code raised an exception on this input. -/
def raisesException (r : Except String (Option ℚ × Option ℚ)) : Bool :=
  match r with
  | .error _ => true
  | .ok _ => false

/-- A well-formed `main` block: each field, when present, is a number. -/
structure MainRec where
  temp_min : Option ℚ
  temp_max : Option ℚ
  temp : Option ℚ

/-- A well-formed forecast entry: a dict whose `dt`/`main` fields, when
present, hold a number resp. a dict of numbers. -/
structure FEntry where
  dt : Option ℚ
  main : Option MainRec

/-- An optional numeric field of a JSON object. -/
def optField (key : String) : Option ℚ → List (String × JsonVal)
  | none => []
  | some q => [(key, .num q)]

/-- The JSON object of a well-formed `main` block. -/
def mkMain (m : MainRec) : JsonVal :=
  .obj (optField "temp_min" m.temp_min ++ optField "temp_max" m.temp_max ++
    optField "temp" m.temp)

/-- The JSON object of a well-formed forecast entry. -/
def mkEntry (e : FEntry) : JsonVal :=
  .obj (optField "dt" e.dt ++
    (match e.main with | none => [] | some m => [("main", mkMain m)]))

/-- A forecast payload with a series timezone offset and well-formed entries. -/
def mkForecast (tz : ℚ) (es : List FEntry) : List (String × JsonVal) :=
  [("city", .obj [("timezone", .num tz)]), ("list", .arr (es.map mkEntry))]

/-- The readings of one entry per the spec's words: when the entry's local
calendar date (timestamp plus offset) equals the target date, collect its min
and max readings, falling back to the point temperature when an explicit
min/max is absent and omitting absent readings; otherwise nothing. -/
def entryReadings (tz : ℚ) (target : ℤ) (e : FEntry) : List ℚ :=
  if epochDay (e.dt.getD 0 + tz) = target then
    (match e.main with
     | none => []
     | some m => [(m.temp_min <|> m.temp), (m.temp_max <|> m.temp)]).filterMap id
  else []

/-- The spec's description of `dailyMinMax`: the overall min and max across all
collected readings, rounded to one decimal place; both `none` when no readings
were collected. -/
def spec_daily_minmax (tz : ℚ) (target : ℤ) (es : List FEntry) : Option ℚ × Option ℚ :=
  match (es.map (entryReadings tz target)).flatten with
  | [] => (none, none)
  | q :: qs => (some (pyRound1 (listMin q qs)), some (pyRound1 (listMax q qs)))

/-- JSON view of an optional temperature. -/
def optJ : Option ℚ → JsonVal
  | some q => .num q
  | none => .null

/-- The JSON temperatures the loop collects from one well-formed entry. -/
def entryTempsJ (tz : ℚ) (target : ℤ) (e : FEntry) : List JsonVal :=
  if epochDay (e.dt.getD 0 + tz) = target then
    match e.main with
    | none => [.null, .null]
    | some m => [optJ (m.temp_min <|> m.temp), optJ (m.temp_max <|> m.temp)]
  else []

theorem entryTemps_mkEntry (tz : ℚ) (target : ℤ) (e : FEntry) :
    entryTemps (.num tz) target (mkEntry e) = .ok (entryTempsJ tz target e) := by
  by_cases hday : epochDay (e.dt.getD 0 + tz) = target
  · rcases e with ⟨- | dq, - | ⟨- | a, - | b, - | c⟩⟩ <;>
      simp_all [entryTemps, mkEntry, optField, jsonGet, pyNum, entryTempsJ,
        mkMain, optJ, Option.orElse]
  · rcases e with ⟨- | dq, - | ⟨- | a, - | b, - | c⟩⟩ <;>
      simp_all [entryTemps, mkEntry, optField, jsonGet, pyNum, entryTempsJ,
        mkMain, optJ, Option.orElse]

theorem collectTemps_cons (tzv : JsonVal) (target : ℤ) (e : JsonVal) (rest : List JsonVal) :
    collectTemps tzv target (e :: rest) =
      match entryTemps tzv target e with
      | .ok ts =>
        match collectTemps tzv target rest with
        | .ok rs => .ok (ts ++ rs)
        | .error err => .error err
      | .error err => .error err := rfl

/-- On well-formed entries the collection loop never raises, and collects per
entry exactly the two (possibly null) readings on a matching local date. -/
theorem collectTemps_map_mkEntry (tz : ℚ) (target : ℤ) (es : List FEntry) :
    collectTemps (.num tz) target (es.map mkEntry) =
      .ok ((es.map (entryTempsJ tz target)).flatten) := by
  induction es with
  | nil => rfl
  | cons e rest ih =>
    rw [List.map_cons, collectTemps_cons, entryTemps_mkEntry, ih]
    rfl

theorem allNums_cons (x : JsonVal) (xs : List JsonVal) :
    allNums (x :: xs) =
      match pyNum x, allNums xs with
      | some q, some qs => some (q :: qs)
      | _, _ => none := rfl

theorem allNums_append (xs ys : List JsonVal) :
    allNums (xs ++ ys) =
      match allNums xs, allNums ys with
      | some a, some b => some (a ++ b)
      | _, _ => none := by
  induction xs with
  | nil => cases h : allNums ys <;> simp [allNums, h]
  | cons x xs ih =>
    rw [List.cons_append, allNums_cons, allNums_cons, ih]
    cases pyNum x <;> cases allNums xs <;> cases allNums ys <;> simp

/-- For one well-formed entry, filtering nulls and converting to numbers yields
exactly the spec-side readings. -/
theorem allNums_entry (tz : ℚ) (target : ℤ) (e : FEntry) :
    allNums (nonNullTemps (entryTempsJ tz target e)) =
      some (entryReadings tz target e) := by
  unfold entryTempsJ entryReadings
  by_cases hday : epochDay (e.dt.getD 0 + tz) = target
  · rw [if_pos hday, if_pos hday]
    rcases e with ⟨-, - | ⟨- | a, - | b, - | c⟩⟩ <;> rfl
  · rw [if_neg hday, if_neg hday]; rfl

theorem allNums_nonNull_flatten (tz : ℚ) (target : ℤ) (es : List FEntry) :
    allNums (nonNullTemps ((es.map (entryTempsJ tz target)).flatten)) =
      some ((es.map (entryReadings tz target)).flatten) := by
  induction es with
  | nil => rfl
  | cons e rest ih =>
    rw [List.map_cons, List.flatten_cons]
    unfold nonNullTemps
    rw [List.filter_append, allNums_append]
    have h1 := allNums_entry tz target e
    unfold nonNullTemps at h1 ih
    rw [h1, ih, List.map_cons, List.flatten_cons]

/-- `_get_daily_minmax` on a well-formed payload returns (without raising)
exactly the spec-side `dailyMinMax`. -/
theorem get_daily_minmax_mkForecast_eq (tz : ℚ) (target : ℤ) (es : List FEntry) :
    get_daily_minmax (mkForecast tz es) target = .ok (spec_daily_minmax tz target es) := by
  have hlist : jsonGet (mkForecast tz es) "list" (.arr []) = .arr (es.map mkEntry) := by
    simp [mkForecast, jsonGet]
  cases es with
  | nil =>
    unfold get_daily_minmax
    rw [hlist]
    rfl
  | cons e rest =>
    have htz : tzOffsetVal (mkForecast tz (e :: rest)) = .ok (.num tz) := by
      simp [mkForecast, tzOffsetVal, jsonGet]
    unfold get_daily_minmax
    rw [hlist, htz, if_neg (by simp [pyTruthy])]
    show dailyFromEntries (JsonVal.num tz) target ((e :: rest).map mkEntry) = _
    unfold dailyFromEntries
    rw [collectTemps_map_mkEntry]
    show (match allNums (nonNullTemps (((e :: rest).map (entryTempsJ tz target)).flatten)) with
      | some [] => Except.ok (none, none)
      | some (q :: qs) =>
        Except.ok (some (pyRound1 (listMin q qs)), some (pyRound1 (listMax q qs)))
      | none =>
        Except.error "TypeError: unorderable or unroundable temperatures") = _
    rw [allNums_nonNull_flatten]
    unfold spec_daily_minmax
    cases ((e :: rest).map (entryReadings tz target)).flatten <;> rfl

/-- The fold computing `min` attains an element of the list. -/
theorem listMin_mem (q : ℚ) (qs : List ℚ) : listMin q qs ∈ q :: qs := by
  induction qs generalizing q with
  | nil => simp [listMin]
  | cons a qs ih =>
    have h := ih (min q a)
    show qs.foldl min (min q a) ∈ _
    rcases List.mem_cons.mp h with h | h
    · rcases min_choice q a with hc | hc
      · exact List.mem_cons.mpr (Or.inl (h.trans hc))
      · exact List.mem_cons.mpr (Or.inr (List.mem_cons.mpr (Or.inl (h.trans hc))))
    · exact List.mem_cons.mpr (Or.inr (List.mem_cons.mpr (Or.inr h)))

/-- The fold computing `min` is a lower bound of the list. -/
theorem listMin_le (q : ℚ) (qs : List ℚ) : ∀ r ∈ q :: qs, listMin q qs ≤ r := by
  induction qs generalizing q with
  | nil =>
    intro r hr
    simp only [List.mem_singleton] at hr
    simp [listMin, hr]
  | cons a qs ih =>
    intro r hr
    show qs.foldl min (min q a) ≤ r
    have hinit : qs.foldl min (min q a) ≤ min q a :=
      ih (min q a) (min q a) (List.mem_cons_self _ _)
    rcases List.mem_cons.mp hr with h | h
    · exact le_of_le_of_eq (le_trans hinit (min_le_left q a)) h.symm
    · rcases List.mem_cons.mp h with h2 | h2
      · exact le_of_le_of_eq (le_trans hinit (min_le_right q a)) h2.symm
      · exact ih (min q a) r (List.mem_cons.mpr (Or.inr h2))

/-- The fold computing `max` attains an element of the list. -/
theorem listMax_mem (q : ℚ) (qs : List ℚ) : listMax q qs ∈ q :: qs := by
  induction qs generalizing q with
  | nil => simp [listMax]
  | cons a qs ih =>
    have h := ih (max q a)
    show qs.foldl max (max q a) ∈ _
    rcases List.mem_cons.mp h with h | h
    · rcases max_choice q a with hc | hc
      · exact List.mem_cons.mpr (Or.inl (h.trans hc))
      · exact List.mem_cons.mpr (Or.inr (List.mem_cons.mpr (Or.inl (h.trans hc))))
    · exact List.mem_cons.mpr (Or.inr (List.mem_cons.mpr (Or.inr h)))

/-- The fold computing `max` is an upper bound of the list. -/
theorem listMax_ge (q : ℚ) (qs : List ℚ) : ∀ r ∈ q :: qs, r ≤ listMax q qs := by
  induction qs generalizing q with
  | nil =>
    intro r hr
    simp only [List.mem_singleton] at hr
    simp [listMax, hr]
  | cons a qs ih =>
    intro r hr
    show r ≤ qs.foldl max (max q a)
    have hinit : max q a ≤ qs.foldl max (max q a) :=
      ih (max q a) (max q a) (List.mem_cons_self _ _)
    rcases List.mem_cons.mp hr with h | h
    · exact le_of_eq_of_le h (le_trans (le_max_left q a) hinit)
    · rcases List.mem_cons.mp h with h2 | h2
      · exact le_of_eq_of_le h2 (le_trans (le_max_right q a) hinit)
      · exact ih (max q a) r (List.mem_cons.mpr (Or.inr h2))

end WeatherApi

section WeatherClaims

open WeatherApi

/-- The three-entry example of the spec: one local day (timezone offset 0,
epoch day 19676 = 2023-11-14), with (min, max, point) readings
(18, 24, 22), (26, 31, 28), (15, 21, 19). -/
def exampleEntries : List FEntry :=
  [⟨some 1700006400, some ⟨some 18, some 24, some 22⟩⟩,
   ⟨some 1700017200, some ⟨some 26, some 31, some 28⟩⟩,
   ⟨some 1700028000, some ⟨some 15, some 21, some 19⟩⟩]

/-- C3: `_get_daily_minmax` returns, without raising, exactly the spec's
`dailyMinMax`: both fields `None` when no entry reading falls on the target
local date (in particular for an empty series), and otherwise the rounded
overall min and max over the collected readings — values that are attained by
and bound every reading.  The spec's three-entry example with (min,max) pairs
(18,24), (26,31), (15,21) in one local day yields 15.0 and 31.0. -/
theorem weather_aggregator_daily_minmax_spec :
    (∀ (tz : ℚ) (target : ℤ) (es : List FEntry),
      get_daily_minmax (mkForecast tz es) target = .ok (spec_daily_minmax tz target es)) ∧
    (∀ (tz : ℚ) (target : ℤ) (es : List FEntry),
      (es.map (entryReadings tz target)).flatten = [] →
        get_daily_minmax (mkForecast tz es) target = .ok (none, none)) ∧
    (∀ (tz : ℚ) (target : ℤ) (es : List FEntry) (q : ℚ) (qs : List ℚ),
      (es.map (entryReadings tz target)).flatten = q :: qs →
        get_daily_minmax (mkForecast tz es) target =
          .ok (some (pyRound1 (listMin q qs)), some (pyRound1 (listMax q qs))) ∧
        (listMin q qs ∈ q :: qs ∧ ∀ r ∈ q :: qs, listMin q qs ≤ r) ∧
        (listMax q qs ∈ q :: qs ∧ ∀ r ∈ q :: qs, r ≤ listMax q qs)) ∧
    get_daily_minmax (mkForecast 0 exampleEntries) 19676 = .ok (some 15, some 31) := by
  refine ⟨get_daily_minmax_mkForecast_eq, ?_, ?_, ?_⟩
  · intro tz target es h
    rw [get_daily_minmax_mkForecast_eq]
    unfold spec_daily_minmax
    rw [h]
  · intro tz target es q qs h
    refine ⟨?_, ⟨listMin_mem q qs, listMin_le q qs⟩, ⟨listMax_mem q qs, listMax_ge q qs⟩⟩
    rw [get_daily_minmax_mkForecast_eq]
    unfold spec_daily_minmax
    rw [h]
  · rw [get_daily_minmax_mkForecast_eq]
    have h : (exampleEntries.map (entryReadings 0 19676)).flatten =
        [18, 24, 26, 31, 15, 21] := by
      norm_num [exampleEntries, entryReadings, epochDay, Option.some_orElse,
        List.filterMap]
    unfold spec_daily_minmax
    rw [h]
    norm_num [listMin, listMax, List.foldl, pyRound1, pyRoundInt, min_def, max_def]

/-- Witness for C3 at the empty series: both fields are `None`. -/
theorem weather_aggregator_daily_minmax_spec_witness :
    get_daily_minmax (mkForecast 0 []) 19676 = .ok (none, none) :=
  weather_aggregator_daily_minmax_spec.2.1 0 19676 [] rfl

/-- C7 counterexample: on the payload `{"list": [None]}` — an entry that is not
a dict — `_get_daily_minmax` raises (`None.get` is an `AttributeError`) instead
of skipping the malformed entry and returning a record. -/
theorem weather_aggregator_raises_on_malformed_entry :
    raisesException (get_daily_minmax [("list", JsonVal.arr [JsonVal.null])] 0) = true := by
  decide

/-- C7 (amended): `_get_daily_minmax` never raises on payloads whose forecast
entries are dicts with numeric-or-absent `dt` and numeric-or-absent temperature
fields — missing fields are tolerated and their readings simply omitted; it is
not total on entries that are not dicts. -/
theorem weather_aggregator_total_on_wellformed :
    ∀ (tz : ℚ) (target : ℤ) (es : List FEntry),
      raisesException (get_daily_minmax (mkForecast tz es) target) = false := by
  intro tz target es
  rw [get_daily_minmax_mkForecast_eq]
  rfl

end WeatherClaims

namespace Nodes

/-! Embedding of `_extract_city` from `src/graph/nodes.py`.

The search regex is hand-compiled: its character classes are disjoint at every
choice point, so the greedy matching below is exactly Python's backtracking
search.  Character classes follow the source pattern code-point for code-point
(`À-Ú` is U+00C0–U+00DA, `à-ú` is U+00E0–U+00FA). -/

/-- Python `\w` for the texts handled here (ASCII word chars and Latin-1
letters). -/
def isWordChar (c : Char) : Bool :=
  let v := c.toNat
  (48 ≤ v && v ≤ 57) || (65 ≤ v && v ≤ 90) || (97 ≤ v && v ≤ 122) || c = '_' ||
  (192 ≤ v && v ≤ 255 && v ≠ 215 && v ≠ 247)

/-- The class `[A-ZÀ-ÚÑ]` opening a city word. -/
def isUpperCls (c : Char) : Bool :=
  let v := c.toNat
  (65 ≤ v && v ≤ 90) || (192 ≤ v && v ≤ 218)

/-- The class `[a-záàâãéèêíïóôõöúçñ]` continuing the first city word. -/
def isLowerCls (c : Char) : Bool :=
  let v := c.toNat
  (97 ≤ v && v ≤ 122) ||
  v = 225 || v = 224 || v = 226 || v = 227 || v = 233 || v = 232 || v = 234 ||
  v = 237 || v = 239 || v = 243 || v = 244 || v = 245 || v = 246 || v = 250 ||
  v = 231 || v = 241

/-- The class `[A-ZÀ-Úa-záàâãéèêíïóôõöúçñ]` of further city-word letters. -/
def isContCls (c : Char) : Bool :=
  let v := c.toNat
  (65 ≤ v && v ≤ 90) || (192 ≤ v && v ≤ 218) || isLowerCls c

/-- The class `[\s\-]` separating city words. -/
def isSepCls (c : Char) : Bool := pyIsWs c || c = '-'

/-- The class `[A-Za-zÀ-ÚÑà-úñ]` of country letters. -/
def isCountryCls (c : Char) : Bool :=
  let v := c.toNat
  (65 ≤ v && v ≤ 90) || (97 ≤ v && v ≤ 122) || (192 ≤ v && v ≤ 218) ||
  (224 ≤ v && v ≤ 250)

/-- Python `str.isupper()` on one character (candidate tokens). -/
def isPyUpperChar (c : Char) : Bool :=
  let v := c.toNat
  (65 ≤ v && v ≤ 90) || (192 ≤ v && v ≤ 222 && v ≠ 215)

/-- The greedy `(?:[\s\-]+[A-ZÀ-Úa-z…]+)*` continuation: the maximal prefix of
separator/letter characters that starts with a separator, trimmed of trailing
separators so it ends in a letter; empty when no full iteration matches. -/
def starExtension (rem : List Char) : List Char :=
  match rem with
  | c :: _ =>
    if isSepCls c then
      ((rem.takeWhile (fun d => isSepCls d || isContCls d)).reverse.dropWhile
        isSepCls).reverse
    else []
  | [] => []

/-- The capture group `[A-ZÀ-ÚÑ][a-z…]+(?:[\s\-]+[…]+)*(?:[/,]\s*[…]+)?`
matched at the head of `s`; `none` when the group does not match here. -/
def matchCityAt (s : List Char) : Option (List Char) :=
  match s with
  | c :: rest =>
    if isUpperCls c then
      match rest.takeWhile isLowerCls with
      | [] => none
      | lw =>
        let rem := rest.drop lw.length
        let ext := starExtension rem
        let word := c :: (lw ++ ext)
        match rem.drop ext.length with
        | d :: rest2 =>
          if d = '/' || d = ',' then
            let wsr := rest2.takeWhile pyIsWs
            match (rest2.drop wsr.length).takeWhile isCountryCls with
            | [] => some word
            | cw => some (word ++ d :: (wsr ++ cw))
          else some word
        | [] => some word
    else none
  | [] => none

/-- The preposition alternatives `em|in|de|for|para`, in pattern order. -/
def cityPreps : List (List Char) :=
  ["em".toList, "in".toList, "de".toList, "for".toList, "para".toList]

/-- One attempt of the whole pattern `\b(?:em|in|de|for|para)\s+⟨city⟩` at the
head of `s` (the caller guarantees the word boundary). -/
def matchPrepAt (s : List Char) : Option (List Char) :=
  (cityPreps.filterMap (fun p =>
    if listStarts p s then
      match s.drop p.length with
      | c :: rest =>
        if pyIsWs c then matchCityAt ((c :: rest).dropWhile pyIsWs)
        else none
      | [] => none
    else none)).head?

/-- `re.search`: scan left to right, attempting the pattern at every word
boundary; `prevWord` tells whether the previous character was a word char. -/
def findPrepMatch (prevWord : Bool) : List Char → Option (List Char)
  | [] => none
  | c :: rest =>
    if prevWord then findPrepMatch (isWordChar c) rest
    else
      match matchPrepAt (c :: rest) with
      | some g => some g
      | none => findPrepMatch (isWordChar c) rest

/-- `raw.rstrip('?!.')`. -/
def rstripPunct (l : List Char) : List Char :=
  (l.reverse.dropWhile (fun c => c = '?' || c = '!' || c = '.')).reverse

/-- Split on the first occurrence of `sep` (Python `split(sep, 1)` when it
occurs). -/
def splitOnceChar (sep : Char) : List Char → Option (List Char × List Char)
  | [] => none
  | c :: rest =>
    if c = sep then some ([], rest)
    else
      match splitOnceChar sep rest with
      | some (a, b) => some (c :: a, b)
      | none => none

/-- The `(city, country)` pair produced from a matched group: strip, strip
trailing `?!.`, then split on the first `/` or `,`. -/
def splitCityCountry (g : List Char) : Option String × Option String :=
  let raw := rstripPunct (pyStripL g)
  match splitOnceChar '/' raw with
  | some (a, b) => (some (String.mk (pyStripL a)), some (String.mk (pyStripL b)))
  | none =>
    match splitOnceChar ',' raw with
    | some (a, b) => (some (String.mk (pyStripL a)), some (String.mk (pyStripL b)))
    | none => (some (String.mk raw), none)

/-- Worker for Python `str.split()`: `cur` is the reversed current token. -/
def pySplitWsAux (cur : List Char) : List Char → List (List Char)
  | [] => if cur.isEmpty then [] else [cur.reverse]
  | c :: rest =>
    if pyIsWs c then
      if cur.isEmpty then pySplitWsAux [] rest
      else cur.reverse :: pySplitWsAux [] rest
    else pySplitWsAux (c :: cur) rest

/-- Python `str.split()` (split on whitespace runs, dropping empty tokens). -/
def pySplitWs (l : List Char) : List (List Char) := pySplitWsAux [] l

/-- The fixed stop-word set of the fallback tier. -/
def citySkipWords : List String :=
  ["Como", "Qual", "What", "How", "The", "Uma", "Está", "Sera", "Vai",
   "Will", "Does", "Can", "Que", "Por", "Não", "Para", "Hoje", "Amanhã",
   "Clima", "Weather", "Tempo", "Temperature", "Temperatura", "Previsão"]

/-- Fallback tier: capitalized tokens of length > 2, cleaned of `?.!,/` and not
in the stop-word set. -/
def cityCandidates (l : List Char) : List (List Char) :=
  (pySplitWs l).filterMap (fun w =>
    match w.filter (fun c => !(c = '?' || c = '.' || c = '!' || c = ',' || c = '/')) with
    | [] => none
    | c :: cs =>
      if isPyUpperChar c && !(citySkipWords.contains (String.mk (c :: cs))) &&
          decide (2 < (c :: cs).length) then
        some (c :: cs)
      else none)

/-- `' '.join(candidates)`. -/
def joinTokens : List (List Char) → List Char
  | [] => []
  | [t] => t
  | t :: ts => t ++ ' ' :: joinTokens ts

/-- Embedding of `_extract_city(query)` (`q = query.strip()` is inlined). -/
def extract_city (query : String) : Option String × Option String :=
  match findPrepMatch false (pyStripL query.toList) with
  | some g => splitCityCountry g
  | none =>
    match cityCandidates (pyStripL query.toList) with
    | [] => (none, none)
    | c :: cs => (some (String.mk (joinTokens (c :: cs))), none)

end Nodes

section CityClaims

open Nodes

/-- C9: the city extractor returns `("Londrina", "PR")` on
"Clima em Londrina/PR", `("London", None)` on "What's the weather in London?"
and `(None, None)` on "Como está o clima?"; in general a preposition match
yields the captured group split on `/` or `,` into city and country, otherwise
the capitalized non-stop-word tokens joined by spaces with no country, and
`(None, None)` when no candidate remains. -/
theorem city_extractor_spec :
    extract_city "Clima em Londrina/PR" = (some "Londrina", some "PR") ∧
    extract_city "What's the weather in London?" = (some "London", none) ∧
    extract_city "Como está o clima?" = (none, none) ∧
    (∀ q g, findPrepMatch false (pyStripL q.toList) = some g →
      extract_city q = splitCityCountry g) ∧
    (∀ q, findPrepMatch false (pyStripL q.toList) = none →
      cityCandidates (pyStripL q.toList) = [] → extract_city q = (none, none)) ∧
    (∀ q c cs, findPrepMatch false (pyStripL q.toList) = none →
      cityCandidates (pyStripL q.toList) = c :: cs →
      extract_city q = (some (String.mk (joinTokens (c :: cs))), none)) := by
  refine ⟨by decide, by decide, by decide, ?_, ?_, ?_⟩
  · intro q g h
    unfold extract_city
    rw [h]
  · intro q h hc
    unfold extract_city
    rw [h, hc]
  · intro q c cs h hc
    unfold extract_city
    rw [h, hc]

/-- Witness for C9 at a concrete query with no preposition and one candidate
token. -/
theorem city_extractor_spec_witness :
    extract_city "Clima Berlim" = (some "Berlim", none) :=
  city_extractor_spec.2.2.2.2.2 "Clima Berlim" "Berlim".toList [] (by decide) (by decide)

end CityClaims

namespace WebSearch

/-! Embedding of `_clean_web_content` and `_run_web_search` from
`src/tools/web_search.py`.

Each `re.sub` pass of `_clean_web_content` is hand-compiled into a scanner over
`List Char`.  Scanners whose recursion consumes a computed number of characters
take a fuel argument; every step consumes at least one character, so fuel =
input length makes the fuel bound unreachable (the fuel-exhausted result `[]`
is then only taken on the empty remainder). -/

/-- `'0' ≤ c ≤ '9'` (Python `\d` for the texts handled here). -/
def isDigitCh (c : Char) : Bool := 48 ≤ c.toNat && c.toNat ≤ 57

/-- Pass 1: `re.sub(r"#{1,6}\s*", "", text)` — strip markdown heading marks:
up to six `#` and the following whitespace run. -/
def stripHeadingsF : Nat → List Char → List Char
  | 0, _ => []
  | _ + 1, [] => []
  | fuel + 1, c :: rest =>
    if c = '#' then
      stripHeadingsF fuel
        (((c :: rest).drop (Nat.min 6 (1 + (rest.takeWhile (fun d => d = '#')).length))).dropWhile
          pyIsWs)
    else c :: stripHeadingsF fuel rest

/-- Pass 2: `re.sub(r"^\d+\.\s+", "", text, flags=re.MULTILINE)` — strip
ordered-list numeric markers at line starts.  `atStart` tracks the `^` anchor
(the scan continues after each match, which within a line can never match
again). -/
def stripListNumsF : Nat → Bool → List Char → List Char
  | 0, _, _ => []
  | _ + 1, _, [] => []
  | fuel + 1, atStart, c :: rest =>
    if atStart && isDigitCh c then
      let ds := c :: rest.takeWhile isDigitCh
      match (c :: rest).drop ds.length with
      | '.' :: r2 =>
        match r2.takeWhile pyIsWs with
        | [] => c :: stripListNumsF fuel false rest
        | w :: ws =>
          stripListNumsF fuel ((w :: ws).getLast (by simp) = '\n') (r2.drop (w :: ws).length)
      | _ => c :: stripListNumsF fuel false rest
    else c :: stripListNumsF fuel (c = '\n') rest

/-- Pass 3: `re.sub(r"\*{1,2}([^*]+)\*{1,2}", r"\1", text)` — unwrap emphasis
marks, keeping the group.  `open`/`close` star counts are greedy (two, then
one), exactly as the backtracking engine resolves them. -/
def stripEmphasisF : Nat → List Char → List Char
  | 0, _ => []
  | _ + 1, [] => []
  | fuel + 1, c :: rest =>
    if c = '*' then
      let tryOpen := fun (n : Nat) =>
        let grp := ((c :: rest).drop n).takeWhile (fun d => d ≠ '*')
        if grp.isEmpty then none
        else
          let afterGrp := (c :: rest).drop (n + grp.length)
          let stars := (afterGrp.takeWhile (fun d => d = '*')).length
          if stars = 0 then none
          else some (grp, n + grp.length + Nat.min 2 stars)
      let attempt :=
        match rest with
        | '*' :: _ =>
          match tryOpen 2 with
          | some r => some r
          | none => tryOpen 1
        | _ => tryOpen 1
      match attempt with
      | some (grp, len) => grp ++ stripEmphasisF fuel ((c :: rest).drop len)
      | none => c :: stripEmphasisF fuel rest
    else c :: stripEmphasisF fuel rest

/-- Pass 4: `re.sub(r"\[\.{2,3}\]", "", text)` — remove `[..]` / `[...]`. -/
def stripBracketDotsF : Nat → List Char → List Char
  | 0, _ => []
  | _ + 1, [] => []
  | fuel + 1, c :: rest =>
    if c = '[' then
      let dots := (rest.takeWhile (fun d => d = '.')).length
      if 3 ≤ dots && ((rest.drop 3).head? == some ']') then
        stripBracketDotsF fuel (rest.drop 4)
      else if 2 ≤ dots && ((rest.drop 2).head? == some ']') then
        stripBracketDotsF fuel (rest.drop 3)
      else c :: stripBracketDotsF fuel rest
    else c :: stripBracketDotsF fuel rest

/-- `"http://"` as characters. -/
def httpPat : List Char := "http://".toList

/-- `"https://"` as characters. -/
def httpsPat : List Char := "https://".toList

/-- `https?://\S+` matches at the head of `s`: a scheme marker immediately
followed by at least one non-whitespace character. -/
def isUrlAt (s : List Char) : Bool :=
  (listStarts httpPat s &&
    (match s.drop 7 with | c :: _ => !pyIsWs c | [] => false)) ||
  (listStarts httpsPat s &&
    (match s.drop 8 with | c :: _ => !pyIsWs c | [] => false))

/-- Drop one URL match: the scheme and the maximal non-whitespace run. -/
def dropUrl (s : List Char) : List Char :=
  if listStarts httpsPat s then (s.drop 8).dropWhile (fun c => !pyIsWs c)
  else (s.drop 7).dropWhile (fun c => !pyIsWs c)

/-- Pass 5: `re.sub(r"https?://\S+", "", text)` — remove URLs. -/
def stripUrlsF : Nat → List Char → List Char
  | 0, _ => []
  | _ + 1, [] => []
  | fuel + 1, c :: rest =>
    if isUrlAt (c :: rest) then stripUrlsF fuel (dropUrl (c :: rest))
    else c :: stripUrlsF fuel rest

/-- Pass 6: `re.sub(r"\\[nrt]", " ", text)` — escaped whitespace sequences
(literal backslash + n/r/t) become one space. -/
def replEscWs : List Char → List Char
  | a :: b :: rest =>
    if a = '\\' && (b = 'n' || b = 'r' || b = 't') then ' ' :: replEscWs rest
    else a :: replEscWs (b :: rest)
  | l => l

/-- `text.split("\n")` (keeping empty parts), worker. -/
def splitNlAux (cur : List Char) : List Char → List (List Char)
  | [] => [cur.reverse]
  | c :: rest =>
    if c = '\n' then cur.reverse :: splitNlAux [] rest
    else splitNlAux (c :: cur) rest

/-- `text.split("\n")` (keeping empty parts). -/
def splitNl (l : List Char) : List (List Char) := splitNlAux [] l

end WebSearch

namespace WebSearch

/-- Token alphabet for the hand-compiled `_NOISE_PATTERNS` alternation:
literal runs, one-of / optional character classes, whitespace (`\s`, `\s*`),
digits (`\d`, optional `\d`), `.` (any char) and a trailing `\b`. -/
inductive NTok where
  | str (s : List Char)
  | cls (cs : List Char)
  | opt (cs : List Char)
  | wsc
  | ws0
  | dig
  | optDig
  | any
  | nw

/-- Matching of one token sequence at the head of `s`.  `\s*` consumes the
maximal whitespace run: in every branch below the token after a `ws0` can only
start with a non-whitespace character, so maximal munch equals the engine's
backtracking search; the optional tokens are matched existentially, which for
these patterns is likewise exact. -/
def matchToks : List NTok → List Char → Bool
  | [], _ => true
  | .str p :: ts, s => listStarts p s && matchToks ts (s.drop p.length)
  | .cls cs :: ts, s =>
    match s with
    | c :: rest => cs.contains c && matchToks ts rest
    | [] => false
  | .opt cs :: ts, s =>
    matchToks ts s ||
      (match s with
       | c :: rest => cs.contains c && matchToks ts rest
       | [] => false)
  | .wsc :: ts, s =>
    match s with
    | c :: rest => pyIsWs c && matchToks ts rest
    | [] => false
  | .ws0 :: ts, s => matchToks ts (s.dropWhile pyIsWs)
  | .dig :: ts, s =>
    match s with
    | c :: rest => isDigitCh c && matchToks ts rest
    | [] => false
  | .optDig :: ts, s =>
    matchToks ts s ||
      (match s with
       | c :: rest => isDigitCh c && matchToks ts rest
       | [] => false)
  | .any :: ts, s =>
    match s with
    | _ :: rest => matchToks ts rest
    | [] => false
  | .nw :: ts, s =>
    (match s with
     | c :: _ => !Nodes.isWordChar c
     | [] => true) && matchToks ts s

/-- Branches of the `_NOISE_PATTERNS` alternation, matched against the
lower-cased line (the pattern is compiled with `(?i)`); part 1 of 4 (one
definition per part keeps elaboration fast). -/
def noiseBranches1 : List (List NTok) :=
  [[.str "cnpj".toList],
   [.str "cep".toList, .ws0, .opt [':'], .ws0, .dig],
   [.str "telefone".toList, .ws0, .opt [':'], .ws0, .cls ['(']],
   [.str "fone".toList, .ws0, .opt [':'], .ws0, .cls ['(']],
   [.str "whatsapp".toList],
   [.str "rodap".toList, .cls ['e', 'é']],
   [.str "cookie".toList],
   [.str "acessibilidade".toList],
   [.str "pol".toList, .cls ['i', 'í'], .str "tica de privacidade".toList],
   [.str "termo".toList, .opt ['s'], .str " de uso".toList],
   [.str "fale conosco".toList],
   [.str "ouvidoria".toList],
   [.str "copyright".toList],
   [.str "©".toList],
   [.str "facebook".toList, .wsc, .ws0, .str "twitter".toList],
   [.str "linkedin".toList, .wsc, .ws0, .str "twitter".toList],
   [.str "instagram".toList, .wsc, .ws0, .str "facebook".toList]]

/-- Branches of the noise alternation, part 2. -/
def noiseBranches2 : List (List NTok) :=
  [[.str "icone marca".toList],
   [.str "favicon".toList],
   [.str ".png".toList, .nw],
   [.str ".jpg".toList, .nw],
   [.str ".svg".toList, .nw],
   [.str "pular para o conte".toList, .cls ['u', 'ú'], .str "do".toList],
   [.str "skip to content".toList],
   [.str "todos os direitos".toList],
   [.str "all rights reserved".toList],
   [.str "portal da prefeitura".toList],
   [.str "menu".toList, .wsc, .ws0, .str "oculto".toList],
   [.str "gabinete do prefeito".toList],
   [.str "n".toList, .cls ['u', 'ú'], .str "cleo de comunica".toList,
    .cls ['c', 'ç'], .cls ['a', 'ã'], .str "o".toList],
   [.str "hor".toList, .cls ['a', 'á'], .str "rio".toList, .opt ['s'],
    .wsc, .ws0, .str "de".toList, .wsc, .ws0, .str "funcionamento".toList],
   [.str "lista de respons".toList, .cls ['a', 'á'], .str "veis".toList],
   [.str "acesso ".toList, .cls ['à', 'a'], .str " informa".toList,
    .cls ['c', 'ç'], .cls ['a', 'ã'], .str "o".toList],
   [.str "ative o javascript".toList]]

/-- Branches of the noise alternation, part 3. -/
def noiseBranches3 : List (List NTok) :=
  [[.str "enable javascript".toList],
   [.str "download on the app".toList, .ws0, .str "store".toList],
   [.str "google play".toList],
   [.str "app store".toList],
   [.str "escolha a cor".toList],
   [.str "escolha o tamanho".toList],
   [.str "c".toList, .cls ['o', 'ó'], .str "digo fornecido".toList],
   [.str "iframe".toList],
   [.str "embed".toList, .wsc, .ws0, .str "code".toList],
   [.dig, .dig, .optDig, .optDig, .str "x".toList, .dig, .dig, .optDig, .optDig, .nw],
   [.str "voltar ao topo".toList],
   [.str "back to top".toList],
   [.str "leia mais".toList],
   [.str "read more".toList],
   [.str "saiba mais".toList],
   [.str "clique aqui".toList],
   [.str "click here".toList]]

/-- Branches of the noise alternation, part 4. -/
def noiseBranches4 : List (List NTok) :=
  [[.str "menu principal".toList],
   [.str "main menu".toList],
   [.str "logotipo".toList],
   [.str "banner".toList],
   [.str "slider".toList],
   [.str "carousel".toList],
   [.str "rel".toList, .cls ['o', 'ó'], .str "gio online".toList],
   [.str "hora exata".toList],
   [.str "fuso hor".toList, .cls ['a', 'á'], .str "rio".toList],
   [.str "timezone".toList],
   [.str "inscreva".toList, .any, .str "se".toList],
   [.str "subscribe".toList],
   [.str "newsletter".toList],
   [.str "compartilh".toList, .cls ['a', 'e']],
   [.str "share this".toList],
   [.str "tweet this".toList]]

/-- The full alternation, in source order. -/
def noiseBranches : List (List NTok) :=
  noiseBranches1 ++ noiseBranches2 ++ noiseBranches3 ++ noiseBranches4

/-- `re.search` of the alternation: try each branch at each position. -/
def anyTailMatch (branches : List (List NTok)) : List Char → Bool
  | [] => branches.any (fun b => matchToks b [])
  | c :: rest =>
    branches.any (fun b => matchToks b (c :: rest)) || anyTailMatch branches rest

/-- `_NOISE_PATTERNS.search(stripped)` (case-insensitive: the line is
lower-cased and matched against lower-case branches). -/
def noiseHit (l : List Char) : Bool :=
  anyTailMatch noiseBranches (l.map pyLowerChar)

/-- The dedup key: `stripped.lower()[:60]`. -/
def lineKeyNorm (st : List Char) : List Char := (st.map pyLowerChar).take 60

/-- Occurrences of one character in a line (`stripped.count(c)`). -/
def countChar (ch : Char) (l : List Char) : Nat := (l.filter (fun c => c = ch)).length

/-- The line-filtering loop of `_clean_web_content`: strip each line, drop
short lines, noise lines, pipe- or em-dash-heavy lines, and lines whose
60-char case-insensitive key was already seen. -/
def keptGo : List (List Char) → List (List Char) → List (List Char)
  | [], _ => []
  | line :: ls, seen =>
    let st := pyStripL line
    if st.length < 30 then keptGo ls seen
    else if noiseHit st then keptGo ls seen
    else if 2 < countChar '|' st then keptGo ls seen
    else if 2 < countChar '—' st then keptGo ls seen
    else if seen.contains (lineKeyNorm st) then keptGo ls seen
    else st :: keptGo ls (lineKeyNorm st :: seen)

/-- `" ".join(kept)`. -/
def joinSpace : List (List Char) → List Char
  | [] => []
  | [t] => t
  | t :: ts => t ++ ' ' :: joinSpace ts

/-- Pass 7: `re.sub(r"\s{2,}", " ", clean)` — whitespace runs of length ≥ 2
become one space (single whitespace characters stay as they are). -/
def collapseWsF : Nat → List Char → List Char
  | 0, _ => []
  | _ + 1, [] => []
  | fuel + 1, c :: rest =>
    if pyIsWs c then
      match rest with
      | d :: _ =>
        if pyIsWs d then ' ' :: collapseWsF fuel (rest.dropWhile pyIsWs)
        else c :: collapseWsF fuel rest
      | [] => [c]
    else c :: collapseWsF fuel rest

/-- The character class `[\w\s]` of the anti-echo group. -/
def echoClass (c : Char) : Bool := Nodes.isWordChar c || pyIsWs c

/-- Count the leading exact copies of `grp` (the greedy `\1+`). -/
def countCopies (grp : List Char) : Nat → List Char → Nat
  | 0, _ => 0
  | fuel + 1, s =>
    if !grp.isEmpty && listStarts grp s then
      1 + countCopies grp fuel (s.drop grp.length)
    else 0

/-- Greedy search for an echo at the head of `s`: try group lengths 51 down to
6 (`\b\w[\w\s]{5,50}`), and accept the first one followed by at least one
repeated copy (`\1+`); returns the group and the copy count. -/
def findEcho (s : List Char) : Option (List Char × Nat) :=
  (List.range 46).findSome? (fun i =>
    let g := 51 - i
    let grp := s.take g
    if grp.length = g && grp.all echoClass then
      let k := countCopies grp s.length (s.drop g)
      if 0 < k then some (grp, k) else none
    else none)

/-- Pass 8: `re.sub(r"(\b\w[\w\s]{5,50})\1+", r"\1", clean)` — collapse
immediately repeated long substrings, keeping one copy.  `prevWord` tracks the
word-boundary context of the scan position. -/
def antiEchoF : Nat → Bool → List Char → List Char
  | 0, _, _ => []
  | _ + 1, _, [] => []
  | fuel + 1, prevWord, c :: rest =>
    if !prevWord && Nodes.isWordChar c then
      match findEcho (c :: rest) with
      | some (grp, k) =>
        grp ++ antiEchoF fuel (Nodes.isWordChar (grp.getLastD c))
          ((c :: rest).drop (grp.length * (1 + k)))
      | none => c :: antiEchoF fuel (Nodes.isWordChar c) rest
    else c :: antiEchoF fuel (Nodes.isWordChar c) rest

/-- Embedding of `_clean_web_content(text, max_chars)`. -/
def cleanWebContent (text : String) (maxChars : Nat) : String :=
  if text = "" then ""
  else
    let t1 := stripHeadingsF text.toList.length text.toList
    let t2 := stripListNumsF t1.length true t1
    let t3 := stripEmphasisF t2.length t2
    let t4 := stripBracketDotsF t3.length t3
    let t5 := stripUrlsF t4.length t4
    let t6 := replEscWs t5
    let kept := keptGo (splitNl t6) []
    let joined := joinSpace kept
    let c1 := collapseWsF joined.length joined
    let c2 := antiEchoF c1.length false c1
    String.mk (pyStripL (c2.take maxChars))

end WebSearch

namespace WebSearch

/-- A raw URL with a visible address: some suffix starts with `http(s)://`
followed by a non-whitespace character. -/
def hasBadUrl : List Char → Bool
  | [] => false
  | c :: rest => isUrlAt (c :: rest) || hasBadUrl rest

theorem listStarts_append_right {p l : List Char} (b : List Char)
    (h : listStarts p l = true) : listStarts p (l ++ b) = true := by
  induction p generalizing l with
  | nil => rfl
  | cons a p ih =>
    cases l with
    | nil => exact absurd h (by simp [listStarts])
    | cons x l =>
      simp only [listStarts, Bool.and_eq_true] at h ⊢
      exact ⟨h.1, ih h.2⟩

theorem listStarts_take_le {p a b : List Char}
    (h : listStarts p (a ++ b) = true) (hle : p.length ≤ a.length) :
    listStarts p a = true := by
  induction p generalizing a with
  | nil => rfl
  | cons x p ih =>
    cases a with
    | nil => simp at hle
    | cons y a =>
      simp only [List.cons_append, listStarts, Bool.and_eq_true] at h ⊢
      exact ⟨h.1, ih h.2 (by simpa using hle)⟩

theorem listStarts_drop_of_append {p a b : List Char}
    (h : listStarts p (a ++ b) = true) (hle : a.length ≤ p.length) :
    listStarts (p.drop a.length) b = true ∧ listStarts a (a ++ b) = true := by
  induction a generalizing p with
  | nil => exact ⟨h, rfl⟩
  | cons y a ih =>
    cases p with
    | nil => simp at hle
    | cons x p =>
      simp only [List.cons_append, listStarts, Bool.and_eq_true] at h
      have := ih h.2 (by simpa using hle)
      refine ⟨by simpa using this.1, ?_⟩
      simp only [List.cons_append, listStarts, Bool.and_eq_true]
      exact ⟨by simp [h.1], this.2⟩

theorem listStarts_self_append (a b : List Char) : listStarts a (a ++ b) = true := by
  induction a with
  | nil => rfl
  | cons x a ih => simp [listStarts, ih]

theorem listStarts_length_le {p l : List Char} (h : listStarts p l = true) :
    p.length ≤ l.length := by
  induction p generalizing l with
  | nil => simp
  | cons x p ih =>
    cases l with
    | nil => exact absurd h (by simp [listStarts])
    | cons y l =>
      simp only [listStarts, Bool.and_eq_true] at h
      simpa using ih h.2

theorem listStarts_append_one {p l : List Char} {d : Char} :
    listStarts (p ++ [d]) l = true ↔
      listStarts p l = true ∧ (l.drop p.length).head? = some d := by
  induction p generalizing l with
  | nil =>
    cases l with
    | nil => simp [listStarts]
    | cons y l => simp [listStarts, eq_comm]
  | cons x p ih =>
    cases l with
    | nil => simp [listStarts]
    | cons y l =>
      simp only [List.cons_append, listStarts, Bool.and_eq_true, List.drop_succ_cons,
        List.append_eq]
      rw [ih]
      tauto

theorem isUrlAt_iff {s : List Char} :
    isUrlAt s = true ↔
      ∃ d, pyIsWs d = false ∧
        (listStarts (httpPat ++ [d]) s = true ∨ listStarts (httpsPat ++ [d]) s = true) := by
  constructor
  · intro h
    simp only [isUrlAt, Bool.or_eq_true, Bool.and_eq_true] at h
    rcases h with ⟨h1, h2⟩ | ⟨h1, h2⟩
    · rcases hd : s.drop 7 with - | ⟨d, rest⟩
      · rw [hd] at h2; exact absurd h2 (by simp)
      · rw [hd] at h2
        simp only [Bool.not_eq_true'] at h2
        refine ⟨d, h2, Or.inl ?_⟩
        rw [listStarts_append_one]
        exact ⟨h1, by rw [show httpPat.length = 7 from rfl, hd]; rfl⟩
    · rcases hd : s.drop 8 with - | ⟨d, rest⟩
      · rw [hd] at h2; exact absurd h2 (by simp)
      · rw [hd] at h2
        simp only [Bool.not_eq_true'] at h2
        refine ⟨d, h2, Or.inr ?_⟩
        rw [listStarts_append_one]
        exact ⟨h1, by rw [show httpsPat.length = 8 from rfl, hd]; rfl⟩
  · rintro ⟨d, hd, h | h⟩
    · rw [listStarts_append_one] at h
      simp only [isUrlAt, Bool.or_eq_true, Bool.and_eq_true]
      left
      refine ⟨h.1, ?_⟩
      have := h.2
      rw [show httpPat.length = 7 from rfl] at this
      rcases hs : s.drop 7 with - | ⟨c, rest⟩
      · rw [hs] at this; simp at this
      · rw [hs] at this
        simp only [List.head?_cons, Option.some.injEq] at this
        subst this
        simp [hd]
    · rw [listStarts_append_one] at h
      simp only [isUrlAt, Bool.or_eq_true, Bool.and_eq_true]
      right
      refine ⟨h.1, ?_⟩
      have := h.2
      rw [show httpsPat.length = 8 from rfl] at this
      rcases hs : s.drop 8 with - | ⟨c, rest⟩
      · rw [hs] at this; simp at this
      · rw [hs] at this
        simp only [List.head?_cons, Option.some.injEq] at this
        subst this
        simp [hd]

theorem isUrlAt_append (b : List Char) {s : List Char} (h : isUrlAt s = true) :
    isUrlAt (s ++ b) = true := by
  rw [isUrlAt_iff] at h ⊢
  rcases h with ⟨d, hd, h | h⟩
  · exact ⟨d, hd, Or.inl (listStarts_append_right b h)⟩
  · exact ⟨d, hd, Or.inr (listStarts_append_right b h)⟩

theorem isUrlAt_ws_head {c : Char} (x : List Char) (h : pyIsWs c = true) :
    isUrlAt (c :: x) = false := by
  have hc : c ≠ 'h' := by
    intro hc
    rw [hc] at h
    exact absurd h (by decide)
  simp only [isUrlAt, httpPat, httpsPat, listStarts]
  simp [Ne.symm hc]

theorem hasBadUrl_cons (c : Char) (l : List Char) :
    hasBadUrl (c :: l) = (isUrlAt (c :: l) || hasBadUrl l) := rfl

theorem hasBadUrl_of_isUrlAt {s : List Char} (h : isUrlAt s = true) :
    hasBadUrl s = true := by
  cases s with
  | nil =>
    rw [isUrlAt_iff] at h
    rcases h with ⟨d, -, h | h⟩ <;> exact absurd (listStarts_length_le h) (by simp [httpPat, httpsPat])
  | cons c rest => simp [hasBadUrl_cons, h]

theorem hasBadUrl_append_left {a : List Char} (b : List Char)
    (h : hasBadUrl a = true) : hasBadUrl (a ++ b) = true := by
  induction a with
  | nil => exact absurd h (by simp [hasBadUrl])
  | cons x a ih =>
    rw [hasBadUrl_cons] at h
    rcases Bool.or_eq_true_iff.mp h with h1 | h1
    · rw [List.cons_append, hasBadUrl_cons]
      have := isUrlAt_append b h1
      rw [List.cons_append] at this
      simp [this]
    · rw [List.cons_append, hasBadUrl_cons, ih h1]
      simp

theorem hasBadUrl_append_right (a : List Char) {b : List Char}
    (h : hasBadUrl b = true) : hasBadUrl (a ++ b) = true := by
  induction a with
  | nil => simpa
  | cons x a ih => simp [hasBadUrl_cons, ih]

theorem hasBadUrl_of_seg {p l : List Char} (hinf : p <:+: l)
    (h : hasBadUrl p = true) : hasBadUrl l = true := by
  rcases hinf with ⟨a, b, rfl⟩
  rw [List.append_assoc]
  exact hasBadUrl_append_right a (hasBadUrl_append_left b h)

theorem hasBadUrl_append_decomp {a b : List Char}
    (h : hasBadUrl (a ++ b) = true) :
    (∃ s, s <:+ a ∧ s ≠ [] ∧ isUrlAt (s ++ b) = true) ∨ hasBadUrl b = true := by
  induction a with
  | nil => exact Or.inr (by simpa using h)
  | cons x a ih =>
    rw [List.cons_append, hasBadUrl_cons] at h
    rcases Bool.or_eq_true_iff.mp h with h1 | h1
    · exact Or.inl ⟨x :: a, List.suffix_refl _, by simp, by simpa using h1⟩
    · rcases ih h1 with ⟨s, hs, hne, hurl⟩ | h2
      · exact Or.inl ⟨s, hs.trans (List.suffix_cons x a), hne, hurl⟩
      · exact Or.inr h2

end WebSearch

namespace WebSearch

theorem dropWhile_nonws_head (l : List Char) :
    ((l.dropWhile (fun c => !pyIsWs c)).head?.all pyIsWs) = true := by
  induction l with
  | nil => rfl
  | cons c rest ih =>
    by_cases h : pyIsWs c
    · simp [List.dropWhile_cons, h]
    · simpa [List.dropWhile_cons, h] using ih

theorem dropUrl_head (s : List Char) : ((dropUrl s).head?.all pyIsWs) = true := by
  unfold dropUrl
  by_cases h : listStarts httpsPat s
  · rw [if_pos h]; exact dropWhile_nonws_head _
  · rw [if_neg h]; exact dropWhile_nonws_head _

/-- Prefix transfer for the URL pass: a non-whitespace pattern appearing at the
head of the output already appears at the head of the input. -/
theorem stripUrlsF_starts {p : List Char} (hws : p.all (fun c => !pyIsWs c) = true) :
    ∀ (fuel : Nat) (l : List Char),
      listStarts p (stripUrlsF fuel l) = true → listStarts p l = true := by
  intro fuel
  induction fuel with
  | zero =>
    intro l h
    cases p with
    | nil => rfl
    | cons a p => exact absurd h (by simp [stripUrlsF, listStarts])
  | succ fuel ih =>
    intro l h
    cases l with
    | nil => simpa [stripUrlsF] using h
    | cons c rest =>
      by_cases hurl : isUrlAt (c :: rest) = true
      · rw [show stripUrlsF (fuel + 1) (c :: rest) = stripUrlsF fuel (dropUrl (c :: rest))
          from by simp [stripUrlsF, hurl]] at h
        have h2 := ih _ h
        cases p with
        | nil => rfl
        | cons a p' =>
          exfalso
          rcases hd : dropUrl (c :: rest) with - | ⟨d, drest⟩
          · rw [hd] at h2; exact absurd h2 (by simp [listStarts])
          · rw [hd] at h2
            simp only [listStarts, Bool.and_eq_true, decide_eq_true_eq] at h2
            have hhead := dropUrl_head (c :: rest)
            rw [hd] at hhead
            simp only [List.head?_cons, Option.all_some] at hhead
            have : (!pyIsWs a) = true := by
              have := List.all_eq_true.mp hws a (by simp)
              simpa using this
            rw [h2.1] at this
            rw [hhead] at this
            simp at this
      · rw [show stripUrlsF (fuel + 1) (c :: rest) = c :: stripUrlsF fuel rest
          from by simp [stripUrlsF, hurl]] at h
        cases p with
        | nil => rfl
        | cons a p' =>
          simp only [listStarts, Bool.and_eq_true] at h ⊢
          refine ⟨h.1, ?_⟩
          have hws' : p'.all (fun c => !pyIsWs c) = true := by
            simp only [List.all_cons, Bool.and_eq_true] at hws
            exact hws.2
          exact stripUrlsF_starts hws' fuel rest h.2

/-- The URL pass leaves no `http(s)://` followed by a non-whitespace char. -/
theorem stripUrlsF_no_bad : ∀ (fuel : Nat) (l : List Char),
    hasBadUrl (stripUrlsF fuel l) = false := by
  intro fuel
  induction fuel with
  | zero => intro l; rfl
  | succ fuel ih =>
    intro l
    cases l with
    | nil => rfl
    | cons c rest =>
      by_cases hurl : isUrlAt (c :: rest) = true
      · rw [show stripUrlsF (fuel + 1) (c :: rest) = stripUrlsF fuel (dropUrl (c :: rest))
          from by simp [stripUrlsF, hurl]]
        exact ih _
      · rw [show stripUrlsF (fuel + 1) (c :: rest) = c :: stripUrlsF fuel rest
          from by simp [stripUrlsF, hurl]]
        rw [hasBadUrl_cons]
        simp only [Bool.or_eq_false_iff]
        refine ⟨?_, ih rest⟩
        by_contra hbad
        rw [Bool.not_eq_false] at hbad
        rw [isUrlAt_iff] at hbad
        rcases hbad with ⟨d, hd, hst | hst⟩
        · rcases hp : (httpPat ++ [d]) with - | ⟨a, p'⟩
          · simp [httpPat] at hp
          · rw [hp] at hst
            simp only [listStarts, Bool.and_eq_true, decide_eq_true_eq] at hst
            have hall : p'.all (fun c => !pyIsWs c) = true := by
              have : ((httpPat ++ [d]).all (fun c => !pyIsWs c)) = true := by
                simp [httpPat, List.all_append, hd]
                decide
              rw [hp] at this
              simp only [List.all_cons, Bool.and_eq_true] at this
              exact this.2
            have := stripUrlsF_starts hall fuel rest hst.2
            apply hurl
            rw [isUrlAt_iff]
            refine ⟨d, hd, Or.inl ?_⟩
            rw [hp]
            simp only [listStarts, Bool.and_eq_true, decide_eq_true_eq]
            exact ⟨hst.1, this⟩
        · rcases hp : (httpsPat ++ [d]) with - | ⟨a, p'⟩
          · simp [httpsPat] at hp
          · rw [hp] at hst
            simp only [listStarts, Bool.and_eq_true, decide_eq_true_eq] at hst
            have hall : p'.all (fun c => !pyIsWs c) = true := by
              have : ((httpsPat ++ [d]).all (fun c => !pyIsWs c)) = true := by
                simp [httpsPat, List.all_append, hd]
                decide
              rw [hp] at this
              simp only [List.all_cons, Bool.and_eq_true] at this
              exact this.2
            have := stripUrlsF_starts hall fuel rest hst.2
            apply hurl
            rw [isUrlAt_iff]
            refine ⟨d, hd, Or.inr ?_⟩
            rw [hp]
            simp only [listStarts, Bool.and_eq_true, decide_eq_true_eq]
            exact ⟨hst.1, this⟩

end WebSearch

namespace WebSearch

theorem httpPat_nonws {d : Char} (hd : pyIsWs d = false) :
    ((httpPat ++ [d]).all (fun ch => !pyIsWs ch)) = true := by
  simp only [httpPat, List.all_append, List.all_cons, List.all_nil, Bool.and_eq_true]
  refine ⟨by decide, by simp [hd]⟩

theorem httpsPat_nonws {d : Char} (hd : pyIsWs d = false) :
    ((httpsPat ++ [d]).all (fun ch => !pyIsWs ch)) = true := by
  simp only [httpsPat, List.all_append, List.all_cons, List.all_nil, Bool.and_eq_true]
  refine ⟨by decide, by simp [hd]⟩

/-- Generic seam argument: a URL at the head of `c :: X` transfers along any
map that preserves non-whitespace head patterns from `X` to `Y`. -/
theorem isUrlAt_cons_of_transfer {c : Char} {X Y : List Char}
    (h : isUrlAt (c :: X) = true)
    (tr : ∀ p : List Char, p.all (fun ch => !pyIsWs ch) = true →
      listStarts p X = true → listStarts p Y = true) :
    isUrlAt (c :: Y) = true := by
  rw [isUrlAt_iff] at h ⊢
  rcases h with ⟨d, hd, hst | hst⟩
  · rcases hp : httpPat ++ [d] with - | ⟨a, p'⟩
    · simp [httpPat] at hp
    · rw [hp] at hst
      simp only [listStarts, Bool.and_eq_true] at hst
      have hall : p'.all (fun ch => !pyIsWs ch) = true := by
        have := httpPat_nonws hd
        rw [hp] at this
        simp only [List.all_cons, Bool.and_eq_true] at this
        exact this.2
      refine ⟨d, hd, Or.inl ?_⟩
      rw [hp]
      simp only [listStarts, Bool.and_eq_true]
      exact ⟨hst.1, tr p' hall hst.2⟩
  · rcases hp : httpsPat ++ [d] with - | ⟨a, p'⟩
    · simp [httpsPat] at hp
    · rw [hp] at hst
      simp only [listStarts, Bool.and_eq_true] at hst
      have hall : p'.all (fun ch => !pyIsWs ch) = true := by
        have := httpsPat_nonws hd
        rw [hp] at this
        simp only [List.all_cons, Bool.and_eq_true] at this
        exact this.2
      refine ⟨d, hd, Or.inr ?_⟩
      rw [hp]
      simp only [listStarts, Bool.and_eq_true]
      exact ⟨hst.1, tr p' hall hst.2⟩

theorem replEscWs_starts :
    ∀ (l : List Char) (p : List Char), p.all (fun ch => !pyIsWs ch) = true →
      listStarts p (replEscWs l) = true → listStarts p l = true := by
  intro l
  induction l using replEscWs.induct with
  | case1 a b rest hc ih =>
    intro p hws h
    rw [show replEscWs (a :: b :: rest) = ' ' :: replEscWs rest
      from by simp [replEscWs, hc]] at h
    cases p with
    | nil => rfl
    | cons x p' =>
      exfalso
      simp only [listStarts, Bool.and_eq_true, decide_eq_true_eq] at h
      have : (!pyIsWs x) = true := by
        have := List.all_eq_true.mp hws x (by simp)
        simpa using this
      rw [h.1] at this
      exact absurd this (by decide)
  | case2 a b rest hc ih =>
    intro p hws h
    rw [show replEscWs (a :: b :: rest) = a :: replEscWs (b :: rest)
      from by simp [replEscWs, hc]] at h
    cases p with
    | nil => rfl
    | cons x p' =>
      simp only [listStarts, Bool.and_eq_true] at h ⊢
      refine ⟨h.1, ih p' ?_ h.2⟩
      simp only [List.all_cons, Bool.and_eq_true] at hws
      exact hws.2
  | case3 l hshort =>
    intro p hws h
    rwa [show replEscWs l = l from by
      cases l with
      | nil => rfl
      | cons a t =>
        cases t with
        | nil => rfl
        | cons b r => exact absurd rfl (hshort a b r)] at h

theorem replEscWs_bad :
    ∀ l : List Char, hasBadUrl (replEscWs l) = true → hasBadUrl l = true := by
  intro l
  induction l using replEscWs.induct with
  | case1 a b rest hc ih =>
    intro h
    rw [show replEscWs (a :: b :: rest) = ' ' :: replEscWs rest
      from by simp [replEscWs, hc]] at h
    rw [hasBadUrl_cons] at h
    rcases Bool.or_eq_true_iff.mp h with h1 | h1
    · rw [isUrlAt_ws_head _ (by decide)] at h1
      exact absurd h1 (by simp)
    · have := ih h1
      exact hasBadUrl_append_right [a, b] this
  | case2 a b rest hc ih =>
    intro h
    rw [show replEscWs (a :: b :: rest) = a :: replEscWs (b :: rest)
      from by simp [replEscWs, hc]] at h
    rw [hasBadUrl_cons] at h
    rcases Bool.or_eq_true_iff.mp h with h1 | h1
    · have := isUrlAt_cons_of_transfer h1 (fun p hws hst => replEscWs_starts (b :: rest) p hws hst)
      rw [hasBadUrl_cons, this]
      simp
    · rw [hasBadUrl_cons, ih h1]
      simp
  | case3 l hshort =>
    intro h
    rwa [show replEscWs l = l from by
      cases l with
      | nil => rfl
      | cons a t =>
        cases t with
        | nil => rfl
        | cons b r => exact absurd rfl (hshort a b r)] at h

end WebSearch

namespace WebSearch

theorem collapseWsF_starts :
    ∀ (fuel : Nat) (l p : List Char), p.all (fun ch => !pyIsWs ch) = true →
      listStarts p (collapseWsF fuel l) = true → listStarts p l = true := by
  intro fuel
  induction fuel with
  | zero =>
    intro l p hws h
    cases p with
    | nil => rfl
    | cons x p' => exact absurd h (by simp [collapseWsF, listStarts])
  | succ fuel ih =>
    intro l p hws h
    cases l with
    | nil => simpa [collapseWsF] using h
    | cons c rest =>
      have hxnonws : ∀ x (p' : List Char), p = x :: p' → (!pyIsWs x) = true := by
        intro x p' hp
        subst hp
        have := List.all_eq_true.mp hws x (by simp)
        simpa using this
      by_cases hc : pyIsWs c
      · cases rest with
        | nil =>
          rw [show collapseWsF (fuel + 1) [c] = [c] from by simp [collapseWsF, hc]] at h
          cases p with
          | nil => rfl
          | cons x p' =>
            simp only [listStarts, Bool.and_eq_true, decide_eq_true_eq] at h
            have := hxnonws x p' rfl
            rw [h.1] at this
            rw [hc] at this
            exact absurd this (by decide)
        | cons d rest' =>
          by_cases hd : pyIsWs d
          · rw [show collapseWsF (fuel + 1) (c :: d :: rest') =
                ' ' :: collapseWsF fuel ((d :: rest').dropWhile pyIsWs)
              from by simp [collapseWsF, hc, hd]] at h
            cases p with
            | nil => rfl
            | cons x p' =>
              simp only [listStarts, Bool.and_eq_true, decide_eq_true_eq] at h
              have := hxnonws x p' rfl
              rw [h.1] at this
              exact absurd this (by decide)
          · rw [show collapseWsF (fuel + 1) (c :: d :: rest') =
                c :: collapseWsF fuel (d :: rest')
              from by simp [collapseWsF, hc, hd]] at h
            cases p with
            | nil => rfl
            | cons x p' =>
              simp only [listStarts, Bool.and_eq_true, decide_eq_true_eq] at h
              have := hxnonws x p' rfl
              rw [h.1] at this
              rw [hc] at this
              exact absurd this (by decide)
      · rw [show collapseWsF (fuel + 1) (c :: rest) = c :: collapseWsF fuel rest
          from by
            cases rest with
            | nil => simp [collapseWsF, hc]
            | cons d rest' => simp [collapseWsF, hc]] at h
        cases p with
        | nil => rfl
        | cons x p' =>
          simp only [listStarts, Bool.and_eq_true] at h ⊢
          refine ⟨h.1, ih rest p' ?_ h.2⟩
          simp only [List.all_cons, Bool.and_eq_true] at hws
          exact hws.2

theorem collapseWsF_bad :
    ∀ (fuel : Nat) (l : List Char),
      hasBadUrl (collapseWsF fuel l) = true → hasBadUrl l = true := by
  intro fuel
  induction fuel with
  | zero => intro l h; exact absurd h (by simp [collapseWsF, hasBadUrl])
  | succ fuel ih =>
    intro l h
    cases l with
    | nil => simpa [collapseWsF] using h
    | cons c rest =>
      by_cases hc : pyIsWs c
      · cases rest with
        | nil =>
          rwa [show collapseWsF (fuel + 1) [c] = [c] from by simp [collapseWsF, hc]] at h
        | cons d rest' =>
          by_cases hd : pyIsWs d
          · rw [show collapseWsF (fuel + 1) (c :: d :: rest') =
                ' ' :: collapseWsF fuel ((d :: rest').dropWhile pyIsWs)
              from by simp [collapseWsF, hc, hd]] at h
            rw [hasBadUrl_cons] at h
            rcases Bool.or_eq_true_iff.mp h with h1 | h1
            · rw [isUrlAt_ws_head _ (by decide)] at h1
              exact absurd h1 (by simp)
            · have h2 := ih _ h1
              have hsuf : (d :: rest').dropWhile pyIsWs <:+ (d :: rest') :=
                List.dropWhile_suffix pyIsWs
              rcases hsuf with ⟨pre, hpre⟩
              have h3 : hasBadUrl (d :: rest') = true := by
                rw [← hpre]
                exact hasBadUrl_append_right pre h2
              exact hasBadUrl_append_right [c] h3
          · rw [show collapseWsF (fuel + 1) (c :: d :: rest') =
                c :: collapseWsF fuel (d :: rest')
              from by simp [collapseWsF, hc, hd]] at h
            rw [hasBadUrl_cons] at h
            rcases Bool.or_eq_true_iff.mp h with h1 | h1
            · rw [isUrlAt_ws_head _ hc] at h1
              exact absurd h1 (by simp)
            · exact hasBadUrl_append_right [c] (ih _ h1)
      · rw [show collapseWsF (fuel + 1) (c :: rest) = c :: collapseWsF fuel rest
          from by
            cases rest with
            | nil => simp [collapseWsF, hc]
            | cons d rest' => simp [collapseWsF, hc]] at h
        rw [hasBadUrl_cons] at h
        rcases Bool.or_eq_true_iff.mp h with h1 | h1
        · have := isUrlAt_cons_of_transfer h1
            (fun p hws hst => collapseWsF_starts fuel rest p hws hst)
          rw [hasBadUrl_cons, this]
          simp
        · exact hasBadUrl_append_right [c] (ih _ h1)

end WebSearch

namespace WebSearch

theorem listStarts_mem {p u : List Char} (h : listStarts p u = true) :
    ∀ ch ∈ p, ch ∈ u := by
  induction p generalizing u with
  | nil => simp
  | cons x p ih =>
    cases u with
    | nil => exact absurd h (by simp [listStarts])
    | cons y u =>
      simp only [listStarts, Bool.and_eq_true, decide_eq_true_eq] at h
      intro ch hch
      rcases List.mem_cons.mp hch with rfl | hch
      · simp [h.1]
      · exact List.mem_cons.mpr (Or.inr (ih h.2 ch hch))

theorem listStarts_take_common {p u : List Char} (h : listStarts p u = true) :
    ∀ m, m ≤ p.length → p.take m = u.take m := by
  induction p generalizing u with
  | nil => intro m hm; simp at hm; simp [hm]
  | cons x p ih =>
    cases u with
    | nil => exact absurd h (by simp [listStarts])
    | cons y u =>
      simp only [listStarts, Bool.and_eq_true, decide_eq_true_eq] at h
      intro m hm
      cases m with
      | zero => simp
      | succ m =>
        simp only [List.take_succ_cons, h.1]
        rw [ih h.2 m (by simpa using hm)]

theorem listStarts_of_take {p l : List Char} {n : Nat}
    (h : listStarts p (l.take n) = true) : listStarts p l = true := by
  induction p generalizing l n with
  | nil => rfl
  | cons x p ih =>
    cases l with
    | nil => simpa using h
    | cons y l =>
      cases n with
      | zero => exact absurd h (by simp [listStarts])
      | succ n =>
        simp only [List.take_succ_cons, listStarts, Bool.and_eq_true] at h ⊢
        exact ⟨h.1, ih h.2⟩

theorem listStarts_append_both {q y : List Char} (s : List Char)
    (h : listStarts q y = true) : listStarts (s ++ q) (s ++ y) = true := by
  induction s with
  | nil => simpa
  | cons x s ih => simp [listStarts, ih]

theorem listStarts_eq_append {p u : List Char} (h : listStarts p u = true) :
    u = p ++ u.drop p.length := by
  induction p generalizing u with
  | nil => simp
  | cons x p ih =>
    cases u with
    | nil => exact absurd h (by simp [listStarts])
    | cons y u =>
      simp only [listStarts, Bool.and_eq_true, decide_eq_true_eq] at h
      simp only [List.cons_append, List.drop_succ_cons]
      rw [h.1]
      exact congrArg (y :: ·) (ih h.2)

/-- Side condition for transfer through the anti-echo pass: every suffix of the
pattern that is long enough to overrun an echo group keeps a non-`[\w\s]`
character (`:` or `/`) in its first six characters. -/
def scOK (p : List Char) : Prop :=
  ∀ q, q <:+ p → 7 ≤ q.length → ∃ ch ∈ q.take 6, echoClass ch = false

theorem scOK_suffix {p q : List Char} (h : scOK p) (hq : q <:+ p) : scOK q :=
  fun r hr hlen => h r (hr.trans hq) hlen

theorem scOK_http {d : Char} : scOK (httpPat ++ [d]) := by
  intro q hq hlen
  have hqe := List.suffix_iff_eq_drop.mp hq
  have hql : q.length ≤ 8 := by
    have := hq.length_le
    simpa [httpPat] using this
  have h78 : q.length = 7 ∨ q.length = 8 := by omega
  refine ⟨':', ?_, by decide⟩
  rcases h78 with h7 | h8
  · rw [h7] at hqe
    rw [show httpPat = ['h', 't', 't', 'p', ':', '/', '/'] from rfl] at hqe
    rw [show (['h', 't', 't', 'p', ':', '/', '/'] ++ [d]).drop
        ((['h', 't', 't', 'p', ':', '/', '/'] ++ [d]).length - 7) =
        ['t', 't', 'p', ':', '/', '/', d] from by simp] at hqe
    rw [hqe]
    simp
  · rw [h8] at hqe
    rw [show httpPat = ['h', 't', 't', 'p', ':', '/', '/'] from rfl] at hqe
    rw [show (['h', 't', 't', 'p', ':', '/', '/'] ++ [d]).drop
        ((['h', 't', 't', 'p', ':', '/', '/'] ++ [d]).length - 8) =
        ['h', 't', 't', 'p', ':', '/', '/', d] from by simp] at hqe
    rw [hqe]
    simp

theorem scOK_https {d : Char} : scOK (httpsPat ++ [d]) := by
  intro q hq hlen
  have hqe := List.suffix_iff_eq_drop.mp hq
  have hql : q.length ≤ 9 := by
    have := hq.length_le
    simpa [httpsPat] using this
  have h789 : q.length = 7 ∨ q.length = 8 ∨ q.length = 9 := by omega
  refine ⟨':', ?_, by decide⟩
  rcases h789 with h7 | h8 | h9
  · rw [h7] at hqe
    rw [show httpsPat = ['h', 't', 't', 'p', 's', ':', '/', '/'] from rfl] at hqe
    rw [show (['h', 't', 't', 'p', 's', ':', '/', '/'] ++ [d]).drop
        ((['h', 't', 't', 'p', 's', ':', '/', '/'] ++ [d]).length - 7) =
        ['t', 'p', 's', ':', '/', '/', d] from by simp] at hqe
    rw [hqe]
    simp
  · rw [h8] at hqe
    rw [show httpsPat = ['h', 't', 't', 'p', 's', ':', '/', '/'] from rfl] at hqe
    rw [show (['h', 't', 't', 'p', 's', ':', '/', '/'] ++ [d]).drop
        ((['h', 't', 't', 'p', 's', ':', '/', '/'] ++ [d]).length - 8) =
        ['t', 't', 'p', 's', ':', '/', '/', d] from by simp] at hqe
    rw [hqe]
    simp
  · rw [h9] at hqe
    rw [show httpsPat = ['h', 't', 't', 'p', 's', ':', '/', '/'] from rfl] at hqe
    rw [show (['h', 't', 't', 'p', 's', ':', '/', '/'] ++ [d]).drop
        ((['h', 't', 't', 'p', 's', ':', '/', '/'] ++ [d]).length - 9) =
        ['h', 't', 't', 'p', 's', ':', '/', '/', d] from by simp] at hqe
    rw [hqe]
    simp

end WebSearch

namespace WebSearch

theorem countCopies_last (grp : List Char) :
    ∀ (fuel : Nat) (t : List Char) (k : Nat), countCopies grp fuel t = k → 1 ≤ k →
      listStarts grp (t.drop (grp.length * (k - 1))) = true := by
  intro fuel
  induction fuel with
  | zero =>
    intro t k h hk
    rw [show countCopies grp 0 t = 0 from rfl] at h
    omega
  | succ fuel ih =>
    intro t k h hk
    by_cases hb : (!grp.isEmpty && listStarts grp t) = true
    · rw [show countCopies grp (fuel + 1) t =
        1 + countCopies grp fuel (t.drop grp.length) from by simp [countCopies, hb]] at h
      rcases hk' : countCopies grp fuel (t.drop grp.length) with - | j
      · rw [hk'] at h
        have : k = 1 := by omega
        subst this
        have hb2 := hb
        simp only [Bool.and_eq_true] at hb2
        simpa using hb2.2
      · rw [hk'] at h
        have hrec := ih (t.drop grp.length) (j + 1) hk' (by omega)
        rw [List.drop_drop] at hrec
        have : k - 1 = j + 1 := by omega
        rw [this]
        have harith : grp.length + grp.length * (j + 1 - 1) = grp.length * (j + 1) := by
          simp [Nat.mul_succ, Nat.add_comm]
        rwa [harith] at hrec
    · rw [show countCopies grp (fuel + 1) t = 0 from by simp [countCopies, hb]] at h
      omega

theorem findEcho_spec {s grp : List Char} {k : Nat}
    (h : findEcho s = some (grp, k)) :
    grp = s.take grp.length ∧ 6 ≤ grp.length ∧ grp.all echoClass = true ∧ 1 ≤ k ∧
    listStarts grp (s.drop (grp.length * k)) = true := by
  unfold findEcho at h
  obtain ⟨i, hmem, hi⟩ := List.exists_of_findSome?_eq_some h
  simp only at hi
  split_ifs at hi with h1 h2
  · have hinj := Option.some.inj hi
    have hgrp : s.take (51 - i) = grp := congrArg Prod.fst hinj
    have hk : countCopies (s.take (51 - i)) s.length (s.drop (51 - i)) = k :=
      congrArg Prod.snd hinj
    simp only [Bool.and_eq_true] at h1
    obtain ⟨hlen, hall⟩ := h1
    have hlen' : grp.length = 51 - i := by
      rw [← hgrp]
      simpa using hlen
    have hge : 6 ≤ grp.length := by
      have := List.mem_range.mp hmem
      omega
    refine ⟨by rw [hlen', hgrp], hge, by rw [← hgrp]; simpa using hall, by omega, ?_⟩
    have hlast := countCopies_last (s.take (51 - i)) s.length (s.drop (51 - i)) k hk
      (by omega)
    rw [List.drop_drop] at hlast
    rw [hgrp] at hlast
    rcases k with - | j
    · omega
    · have harith : 51 - i + grp.length * (j + 1 - 1) = grp.length * (j + 1) := by
        rw [← hlen']
        simp [Nat.mul_succ, Nat.add_comm]
      rwa [harith] at hlast

end WebSearch

namespace WebSearch

/-- Prefix transfer for the anti-echo pass: a non-whitespace pattern whose every
long suffix keeps a non-`[\w\s]` character cannot be produced by collapsing an
echo, so it already heads the input. -/
theorem antiEchoF_starts :
    ∀ (fuel : Nat) (pw : Bool) (l p : List Char),
      p.all (fun ch => !pyIsWs ch) = true → scOK p →
      listStarts p (antiEchoF fuel pw l) = true → listStarts p l = true := by
  intro fuel
  induction fuel with
  | zero =>
    intro pw l p hws hsc h
    cases p with
    | nil => rfl
    | cons x p' => exact absurd h (by simp [antiEchoF, listStarts])
  | succ fuel ih =>
    intro pw l p hws hsc h
    cases l with
    | nil => simpa [antiEchoF] using h
    | cons c rest =>
      have hcons : ∀ pw' : Bool,
          listStarts p (c :: antiEchoF fuel pw' rest) = true →
          listStarts p (c :: rest) = true := by
        intro pw' hh
        cases p with
        | nil => rfl
        | cons x p' =>
          simp only [listStarts, Bool.and_eq_true] at hh ⊢
          refine ⟨hh.1, ih pw' rest p' ?_ (scOK_suffix hsc (List.suffix_cons x p')) hh.2⟩
          simp only [List.all_cons, Bool.and_eq_true] at hws
          exact hws.2
      by_cases hcond : (!pw && Nodes.isWordChar c) = true
      · rcases hfe : findEcho (c :: rest) with - | ⟨grp, k⟩
        · rw [show antiEchoF (fuel + 1) pw (c :: rest) =
              c :: antiEchoF fuel (Nodes.isWordChar c) rest
            from by simp [antiEchoF, hcond, hfe]] at h
          exact hcons _ h
        · rw [show antiEchoF (fuel + 1) pw (c :: rest) =
              grp ++ antiEchoF fuel (Nodes.isWordChar (grp.getLastD c))
                ((c :: rest).drop (grp.length * (1 + k)))
            from by simp [antiEchoF, hcond, hfe]] at h
          obtain ⟨hgrp, hg6, hall, hk1, hlast⟩ := findEcho_spec hfe
          by_cases hle : p.length ≤ grp.length
          · have h1 := listStarts_take_le h hle
            rw [hgrp] at h1
            exact listStarts_of_take h1
          · exfalso
            obtain ⟨ch, hch6, hchf⟩ := hsc p (List.suffix_refl p) (by omega)
            have htk : p.take 6 = grp.take 6 := by
              have := listStarts_take_common h 6 (by omega)
              rw [this]
              simp [List.take_append_eq_append_take, Nat.sub_eq_zero_of_le hg6]
            rw [htk] at hch6
            have hmem : ch ∈ grp := List.mem_of_mem_take hch6
            have := List.all_eq_true.mp hall ch hmem
            rw [hchf] at this
            exact absurd this (by decide)
      · rw [show antiEchoF (fuel + 1) pw (c :: rest) =
            c :: antiEchoF fuel (Nodes.isWordChar c) rest
          from by simp [antiEchoF, hcond]] at h
        exact hcons _ h

/-- Seam helper carrying the `scOK` side condition. -/
theorem isUrlAt_cons_of_transfer_sc {c : Char} {X Y : List Char}
    (h : isUrlAt (c :: X) = true)
    (tr : ∀ p : List Char, p.all (fun ch => !pyIsWs ch) = true → scOK p →
      listStarts p X = true → listStarts p Y = true) :
    isUrlAt (c :: Y) = true := by
  rw [isUrlAt_iff] at h ⊢
  rcases h with ⟨d, hd, hst | hst⟩
  · rcases hp : httpPat ++ [d] with - | ⟨a, p'⟩
    · simp [httpPat] at hp
    · rw [hp] at hst
      simp only [listStarts, Bool.and_eq_true] at hst
      have hall : p'.all (fun ch => !pyIsWs ch) = true := by
        have := httpPat_nonws hd
        rw [hp] at this
        simp only [List.all_cons, Bool.and_eq_true] at this
        exact this.2
      have hsc : scOK p' := by
        have := scOK_http (d := d)
        rw [hp] at this
        exact scOK_suffix this (List.suffix_cons a p')
      refine ⟨d, hd, Or.inl ?_⟩
      rw [hp]
      simp only [listStarts, Bool.and_eq_true]
      exact ⟨hst.1, tr p' hall hsc hst.2⟩
  · rcases hp : httpsPat ++ [d] with - | ⟨a, p'⟩
    · simp [httpsPat] at hp
    · rw [hp] at hst
      simp only [listStarts, Bool.and_eq_true] at hst
      have hall : p'.all (fun ch => !pyIsWs ch) = true := by
        have := httpsPat_nonws hd
        rw [hp] at this
        simp only [List.all_cons, Bool.and_eq_true] at this
        exact this.2
      have hsc : scOK p' := by
        have := scOK_https (d := d)
        rw [hp] at this
        exact scOK_suffix this (List.suffix_cons a p')
      refine ⟨d, hd, Or.inr ?_⟩
      rw [hp]
      simp only [listStarts, Bool.and_eq_true]
      exact ⟨hst.1, tr p' hall hsc hst.2⟩

end WebSearch

namespace WebSearch

/-- The anti-echo pass introduces no raw URL: a visible `http(s)://` address in
its output was already present in its input. -/
theorem antiEchoF_bad :
    ∀ (fuel : Nat) (pw : Bool) (l : List Char),
      hasBadUrl (antiEchoF fuel pw l) = true → hasBadUrl l = true := by
  intro fuel
  induction fuel with
  | zero => intro pw l h; exact absurd h (by simp [antiEchoF, hasBadUrl])
  | succ fuel ih =>
    intro pw l h
    cases l with
    | nil => simpa [antiEchoF] using h
    | cons c rest =>
      have hconsb : ∀ pw' : Bool,
          hasBadUrl (c :: antiEchoF fuel pw' rest) = true →
          hasBadUrl (c :: rest) = true := by
        intro pw' hh
        rw [hasBadUrl_cons] at hh
        rcases Bool.or_eq_true_iff.mp hh with h1 | h1
        · have := isUrlAt_cons_of_transfer_sc h1
            (fun p hws hsc hst => antiEchoF_starts fuel pw' rest p hws hsc hst)
          rw [hasBadUrl_cons, this]
          simp
        · exact hasBadUrl_append_right [c] (ih pw' rest h1)
      by_cases hcond : (!pw && Nodes.isWordChar c) = true
      · rcases hfe : findEcho (c :: rest) with - | ⟨grp, k⟩
        · rw [show antiEchoF (fuel + 1) pw (c :: rest) =
              c :: antiEchoF fuel (Nodes.isWordChar c) rest
            from by simp [antiEchoF, hcond, hfe]] at h
          exact hconsb _ h
        · rw [show antiEchoF (fuel + 1) pw (c :: rest) =
              grp ++ antiEchoF fuel (Nodes.isWordChar (grp.getLastD c))
                ((c :: rest).drop (grp.length * (1 + k)))
            from by simp [antiEchoF, hcond, hfe]] at h
          obtain ⟨hgrp, hg6, hall, hk1, hlast⟩ := findEcho_spec hfe
          rcases hasBadUrl_append_decomp h with ⟨sfx, hsfx, hne, hurl⟩ | hbadT
          · rw [isUrlAt_iff] at hurl
            obtain ⟨d, hd, hor⟩ := hurl
            have hfacts : ∃ p : List Char, p.all (fun ch => !pyIsWs ch) = true ∧
                scOK p ∧ (':' ∈ p) ∧
                listStarts p (sfx ++ antiEchoF fuel (Nodes.isWordChar (grp.getLastD c))
                  ((c :: rest).drop (grp.length * (1 + k)))) = true ∧
                (∀ s : List Char, listStarts p s = true → isUrlAt s = true) := by
              rcases hor with hst | hst
              · refine ⟨httpPat ++ [d], httpPat_nonws hd, scOK_http, ?_, hst,
                  fun s hs => isUrlAt_iff.mpr ⟨d, hd, Or.inl hs⟩⟩
                exact List.mem_append_left _ (by decide)
              · refine ⟨httpsPat ++ [d], httpsPat_nonws hd, scOK_https, ?_, hst,
                  fun s hs => isUrlAt_iff.mpr ⟨d, hd, Or.inr hs⟩⟩
                exact List.mem_append_left _ (by decide)
            obtain ⟨p, hpws, hpsc, hpcolon, hpst, hpurl⟩ := hfacts
            by_cases hlen : p.length ≤ sfx.length
            · exfalso
              have hps := listStarts_take_le hpst hlen
              have hcs : ':' ∈ sfx := listStarts_mem hps ':' hpcolon
              obtain ⟨pre, hpre⟩ := hsfx
              have hcg : ':' ∈ grp := by
                rw [← hpre]
                exact List.mem_append_right pre hcs
              have := List.all_eq_true.mp hall ':' hcg
              exact absurd this (by decide)
            · push_neg at hlen
              obtain ⟨hdrop, -⟩ := listStarts_drop_of_append hpst (le_of_lt hlen)
              have hp2ws : (p.drop sfx.length).all (fun ch => !pyIsWs ch) = true :=
                List.all_eq_true.mpr
                  (fun x hx => List.all_eq_true.mp hpws x (List.mem_of_mem_drop hx))
              have hp2sc : scOK (p.drop sfx.length) :=
                scOK_suffix hpsc (List.drop_suffix _ _)
              have h2 := antiEchoF_starts fuel (Nodes.isWordChar (grp.getLastD c))
                ((c :: rest).drop (grp.length * (1 + k))) (p.drop sfx.length)
                hp2ws hp2sc hdrop
              have htake : p.take sfx.length = sfx := by
                rw [listStarts_take_common hpst sfx.length (le_of_lt hlen)]
                simp [List.take_append_eq_append_take]
              have hsplit : p = sfx ++ p.drop sfx.length := by
                conv_lhs => rw [← List.take_append_drop sfx.length p]
                rw [htake]
              have hD : (c :: rest).drop (grp.length * k) =
                  grp ++ (c :: rest).drop (grp.length * (1 + k)) := by
                rw [listStarts_eq_append hlast, List.drop_drop]
                congr 2
                ring
              have hstD : listStarts p
                  (sfx ++ (c :: rest).drop (grp.length * (1 + k))) = true := by
                rw [hsplit]
                exact listStarts_append_both sfx h2
              have hbadD : hasBadUrl
                  (sfx ++ (c :: rest).drop (grp.length * (1 + k))) = true :=
                hasBadUrl_of_isUrlAt (hpurl _ hstD)
              obtain ⟨pre, hpre⟩ := hsfx
              have hsplit2 : (c :: rest).drop (grp.length * k) =
                  pre ++ (sfx ++ (c :: rest).drop (grp.length * (1 + k))) := by
                rw [hD, ← List.append_assoc, hpre]
              obtain ⟨pre0, hpre0⟩ := List.drop_suffix (grp.length * k) (c :: rest)
              rw [← hpre0, hsplit2]
              exact hasBadUrl_append_right pre0 (hasBadUrl_append_right pre hbadD)
          · have hbad := ih _ _ hbadT
            obtain ⟨pre0, hpre0⟩ := List.drop_suffix (grp.length * (1 + k)) (c :: rest)
            rw [← hpre0]
            exact hasBadUrl_append_right pre0 hbad
      · rw [show antiEchoF (fuel + 1) pw (c :: rest) =
            c :: antiEchoF fuel (Nodes.isWordChar c) rest
          from by simp [antiEchoF, hcond]] at h
        exact hconsb _ h

end WebSearch

namespace WebSearch

theorem splitNlAux_seg :
    ∀ (l cur part : List Char), part ∈ splitNlAux cur l → part <:+: cur.reverse ++ l := by
  intro l
  induction l with
  | nil =>
    intro cur part h
    simp only [splitNlAux, List.mem_singleton] at h
    subst h
    simp
  | cons c rest ih =>
    intro cur part h
    by_cases hc : c = '\n'
    · rw [show splitNlAux cur (c :: rest) = cur.reverse :: splitNlAux [] rest
        from by simp [splitNlAux, hc]] at h
      rcases List.mem_cons.mp h with rfl | h2
      · exact ⟨[], c :: rest, by simp⟩
      · have h3 := ih [] part h2
        simp only [List.reverse_nil, List.nil_append] at h3
        exact h3.trans ⟨cur.reverse ++ [c], [], by simp⟩
    · rw [show splitNlAux cur (c :: rest) = splitNlAux (c :: cur) rest
        from by simp [splitNlAux, hc]] at h
      have h3 := ih (c :: cur) part h
      rwa [show (c :: cur).reverse ++ rest = cur.reverse ++ c :: rest from by simp] at h3

theorem splitNl_seg {l part : List Char} (h : part ∈ splitNl l) : part <:+: l := by
  have h2 := splitNlAux_seg l [] part h
  simpa using h2

theorem pyStripL_seg (l : List Char) : pyStripL l <:+: l := by
  unfold pyStripL
  obtain ⟨t, ht⟩ := List.dropWhile_suffix (l := (l.dropWhile pyIsWs).reverse) pyIsWs
  have hpre : ((l.dropWhile pyIsWs).reverse.dropWhile pyIsWs).reverse <+:
      l.dropWhile pyIsWs := by
    refine ⟨t.reverse, ?_⟩
    have h2 := congrArg List.reverse ht
    simpa using h2
  exact hpre.isInfix.trans (List.dropWhile_suffix pyIsWs).isInfix

theorem keptGo_mem :
    ∀ (ls seen : List (List Char)) (st : List Char), st ∈ keptGo ls seen →
      ∃ line ∈ ls, st = pyStripL line ∧ 30 ≤ st.length ∧ noiseHit st = false ∧
        countChar '|' st ≤ 2 ∧ countChar '—' st ≤ 2 := by
  intro ls
  induction ls with
  | nil => intro seen st h; exact absurd h (by simp [keptGo])
  | cons line ls ih =>
    intro seen st h
    have hskip : st ∈ keptGo ls seen →
        ∃ l2 ∈ line :: ls, st = pyStripL l2 ∧ 30 ≤ st.length ∧ noiseHit st = false ∧
          countChar '|' st ≤ 2 ∧ countChar '—' st ≤ 2 := by
      intro hh
      obtain ⟨l2, hl2, hrest⟩ := ih seen st hh
      exact ⟨l2, List.mem_cons_of_mem _ hl2, hrest⟩
    by_cases h1 : (pyStripL line).length < 30
    · exact hskip (by rwa [show keptGo (line :: ls) seen = keptGo ls seen
        from by simp [keptGo, h1]] at h)
    · by_cases h2 : noiseHit (pyStripL line) = true
      · exact hskip (by rwa [show keptGo (line :: ls) seen = keptGo ls seen
          from by simp [keptGo, h1, h2]] at h)
      · by_cases h3 : 2 < countChar '|' (pyStripL line)
        · exact hskip (by rwa [show keptGo (line :: ls) seen = keptGo ls seen
            from by simp [keptGo, h1, h2, h3]] at h)
        · by_cases h4 : 2 < countChar '—' (pyStripL line)
          · exact hskip (by rwa [show keptGo (line :: ls) seen = keptGo ls seen
              from by simp [keptGo, h1, h2, h3, h4]] at h)
          · by_cases h5 : lineKeyNorm (pyStripL line) ∈ seen
            · exact hskip (by rwa [show keptGo (line :: ls) seen = keptGo ls seen
                from by simp [keptGo, h1, h2, h3, h4, h5]] at h)
            · rw [show keptGo (line :: ls) seen =
                  pyStripL line :: keptGo ls (lineKeyNorm (pyStripL line) :: seen)
                from by simp [keptGo, h1, h2, h3, h4, h5]] at h
              rcases List.mem_cons.mp h with rfl | h6
              · refine ⟨line, List.mem_cons_self _ _, rfl, by omega,
                  by simpa using h2, by omega, by omega⟩
              · obtain ⟨l2, hl2, hrest⟩ := ih _ st h6
                exact ⟨l2, List.mem_cons_of_mem _ hl2, hrest⟩

theorem keptGo_key_notin :
    ∀ (ls seen : List (List Char)) (st : List Char), st ∈ keptGo ls seen →
      seen.contains (lineKeyNorm st) = false := by
  intro ls
  induction ls with
  | nil => intro seen st h; exact absurd h (by simp [keptGo])
  | cons line ls ih =>
    intro seen st h
    by_cases h1 : (pyStripL line).length < 30
    · exact ih seen st (by rwa [show keptGo (line :: ls) seen = keptGo ls seen
        from by simp [keptGo, h1]] at h)
    · by_cases h2 : noiseHit (pyStripL line) = true
      · exact ih seen st (by rwa [show keptGo (line :: ls) seen = keptGo ls seen
          from by simp [keptGo, h1, h2]] at h)
      · by_cases h3 : 2 < countChar '|' (pyStripL line)
        · exact ih seen st (by rwa [show keptGo (line :: ls) seen = keptGo ls seen
            from by simp [keptGo, h1, h2, h3]] at h)
        · by_cases h4 : 2 < countChar '—' (pyStripL line)
          · exact ih seen st (by rwa [show keptGo (line :: ls) seen = keptGo ls seen
              from by simp [keptGo, h1, h2, h3, h4]] at h)
          · by_cases h5 : lineKeyNorm (pyStripL line) ∈ seen
            · exact ih seen st (by rwa [show keptGo (line :: ls) seen = keptGo ls seen
                from by simp [keptGo, h1, h2, h3, h4, h5]] at h)
            · rw [show keptGo (line :: ls) seen =
                  pyStripL line :: keptGo ls (lineKeyNorm (pyStripL line) :: seen)
                from by simp [keptGo, h1, h2, h3, h4, h5]] at h
              rcases List.mem_cons.mp h with rfl | h6
              · simpa using h5
              · have h7 := ih _ st h6
                simp only [List.contains_cons, Bool.or_eq_false_iff] at h7
                exact h7.2

theorem keptGo_keys_pairwise :
    ∀ (ls seen : List (List Char)),
      List.Pairwise (fun a b => lineKeyNorm a ≠ lineKeyNorm b) (keptGo ls seen) := by
  intro ls
  induction ls with
  | nil => intro seen; simp [keptGo]
  | cons line ls ih =>
    intro seen
    by_cases h1 : (pyStripL line).length < 30
    · rw [show keptGo (line :: ls) seen = keptGo ls seen from by simp [keptGo, h1]]
      exact ih seen
    · by_cases h2 : noiseHit (pyStripL line) = true
      · rw [show keptGo (line :: ls) seen = keptGo ls seen from by simp [keptGo, h1, h2]]
        exact ih seen
      · by_cases h3 : 2 < countChar '|' (pyStripL line)
        · rw [show keptGo (line :: ls) seen = keptGo ls seen
            from by simp [keptGo, h1, h2, h3]]
          exact ih seen
        · by_cases h4 : 2 < countChar '—' (pyStripL line)
          · rw [show keptGo (line :: ls) seen = keptGo ls seen
              from by simp [keptGo, h1, h2, h3, h4]]
            exact ih seen
          · by_cases h5 : lineKeyNorm (pyStripL line) ∈ seen
            · rw [show keptGo (line :: ls) seen = keptGo ls seen
                from by simp [keptGo, h1, h2, h3, h4, h5]]
              exact ih seen
            · rw [show keptGo (line :: ls) seen =
                  pyStripL line :: keptGo ls (lineKeyNorm (pyStripL line) :: seen)
                from by simp [keptGo, h1, h2, h3, h4, h5]]
              rw [List.pairwise_cons]
              refine ⟨?_, ih _⟩
              intro b hb
              have h7 := keptGo_key_notin ls _ b hb
              simp only [List.contains_cons, Bool.or_eq_false_iff] at h7
              intro heq
              have h8 := h7.1
              rw [heq] at h8
              simp at h8

end WebSearch

namespace WebSearch

/-- A raw URL in `" ".join(kept)` lies inside one of the joined parts: the URL
pattern is all non-whitespace, so it cannot cross the single-space seams. -/
theorem joinSpace_bad :
    ∀ (parts : List (List Char)), hasBadUrl (joinSpace parts) = true →
      ∃ part ∈ parts, hasBadUrl part = true := by
  intro parts
  induction parts with
  | nil => intro h; exact absurd h (by simp [joinSpace, hasBadUrl])
  | cons t ts ih =>
    intro h
    cases ts with
    | nil =>
      rw [show joinSpace [t] = t from rfl] at h
      exact ⟨t, by simp, h⟩
    | cons t2 ts2 =>
      rw [show joinSpace (t :: t2 :: ts2) = t ++ ' ' :: joinSpace (t2 :: ts2)
        from rfl] at h
      rcases hasBadUrl_append_decomp h with ⟨sfx, hsfx, hne, hurl⟩ | hbad
      · rw [isUrlAt_iff] at hurl
        obtain ⟨d, hd, hor⟩ := hurl
        have hfacts : ∃ p : List Char, p.all (fun ch => !pyIsWs ch) = true ∧
            listStarts p (sfx ++ ' ' :: joinSpace (t2 :: ts2)) = true ∧
            (∀ s : List Char, listStarts p s = true → isUrlAt s = true) := by
          rcases hor with hst | hst
          · exact ⟨httpPat ++ [d], httpPat_nonws hd, hst,
              fun s hs => isUrlAt_iff.mpr ⟨d, hd, Or.inl hs⟩⟩
          · exact ⟨httpsPat ++ [d], httpsPat_nonws hd, hst,
              fun s hs => isUrlAt_iff.mpr ⟨d, hd, Or.inr hs⟩⟩
        obtain ⟨p, hpws, hpst, hpurl⟩ := hfacts
        by_cases hlen : p.length ≤ sfx.length
        · have hps := listStarts_take_le hpst hlen
          refine ⟨t, by simp, ?_⟩
          exact hasBadUrl_of_seg hsfx.isInfix (hasBadUrl_of_isUrlAt (hpurl sfx hps))
        · exfalso
          push_neg at hlen
          obtain ⟨hdrop, -⟩ := listStarts_drop_of_append hpst (le_of_lt hlen)
          rcases hq : p.drop sfx.length with - | ⟨x, q⟩
          · have h9 := congrArg List.length hq
            simp only [List.length_drop, List.length_nil] at h9
            omega
          · rw [hq] at hdrop
            simp only [listStarts, Bool.and_eq_true, decide_eq_true_eq] at hdrop
            have hx : x ∈ p := List.mem_of_mem_drop (by rw [hq]; simp)
            have h9 := List.all_eq_true.mp hpws x hx
            rw [hdrop.1] at h9
            exact absurd h9 (by decide)
      · rw [hasBadUrl_cons] at hbad
        rcases Bool.or_eq_true_iff.mp hbad with h1 | h1
        · rw [isUrlAt_ws_head _ (by decide)] at h1
          exact absurd h1 (by simp)
        · obtain ⟨part, hp, hb⟩ := ih h1
          exact ⟨part, List.mem_cons_of_mem _ hp, hb⟩

end WebSearch

namespace WebSearch

/-- The first five regex passes of `_clean_web_content` (headings, list
numbers, emphasis, bracketed ellipses, URLs), as one composition. -/
def sanitizeStage5 (l : List Char) : List Char :=
  let t1 := stripHeadingsF l.length l
  let t2 := stripListNumsF t1.length true t1
  let t3 := stripEmphasisF t2.length t2
  let t4 := stripBracketDotsF t3.length t3
  stripUrlsF t4.length t4

/-- The tail of `_clean_web_content` after the URL pass: escaped-whitespace
replacement, line filtering, joining, whitespace collapse, anti-echo,
truncation and final strip. -/
def sanitizeTail (t5 : List Char) (maxChars : Nat) : List Char :=
  let t6 := replEscWs t5
  let kept := keptGo (splitNl t6) []
  let joined := joinSpace kept
  let c1 := collapseWsF joined.length joined
  let c2 := antiEchoF c1.length false c1
  pyStripL (c2.take maxChars)

theorem cleanWebContent_eq (text : String) (maxChars : Nat) :
    cleanWebContent text maxChars =
      if text = "" then ""
      else String.mk (sanitizeTail (sanitizeStage5 text.toList) maxChars) := rfl

theorem sanitizeTail_no_bad (t5 : List Char) (h5 : hasBadUrl t5 = false)
    (maxChars : Nat) : hasBadUrl (sanitizeTail t5 maxChars) = false := by
  by_contra hbad
  rw [Bool.not_eq_false] at hbad
  rw [show sanitizeTail t5 maxChars = pyStripL ((antiEchoF
      (collapseWsF (joinSpace (keptGo (splitNl (replEscWs t5)) [])).length
        (joinSpace (keptGo (splitNl (replEscWs t5)) []))).length false
      (collapseWsF (joinSpace (keptGo (splitNl (replEscWs t5)) [])).length
        (joinSpace (keptGo (splitNl (replEscWs t5)) [])))).take maxChars)
    from rfl] at hbad
  have h1 := hasBadUrl_of_seg (pyStripL_seg _) hbad
  have h2 := hasBadUrl_of_seg (List.IsPrefix.isInfix ( List.take_prefix _ _)) h1
  have h3 := antiEchoF_bad _ _ _ h2
  have h4 := collapseWsF_bad _ _ h3
  obtain ⟨part, hp, hb⟩ := joinSpace_bad _ h4
  obtain ⟨line, hline, hpart, -, -, -, -⟩ := keptGo_mem _ _ _ hp
  rw [hpart] at hb
  have h6 := hasBadUrl_of_seg (pyStripL_seg line) hb
  have h7 := hasBadUrl_of_seg (splitNl_seg hline) h6
  have h8 := replEscWs_bad _ h7
  rw [h5] at h8
  exact absurd h8 (by simp)

theorem sanitizeTail_length (t5 : List Char) (maxChars : Nat) :
    (sanitizeTail t5 maxChars).length ≤ maxChars := by
  rw [show sanitizeTail t5 maxChars = pyStripL ((antiEchoF
      (collapseWsF (joinSpace (keptGo (splitNl (replEscWs t5)) [])).length
        (joinSpace (keptGo (splitNl (replEscWs t5)) []))).length false
      (collapseWsF (joinSpace (keptGo (splitNl (replEscWs t5)) [])).length
        (joinSpace (keptGo (splitNl (replEscWs t5)) [])))).take maxChars)
    from rfl]
  calc (pyStripL _).length ≤ _ := (pyStripL_seg _).length_le
    _ ≤ maxChars := List.length_take_le _ _

end WebSearch

section WebSearchClaims

open WebSearch

set_option maxRecDepth 4000 in
/-- C6, counterexample: the spec says no `http://` substring survives
`_clean_web_content`, but the URL regex `https?://\S+` needs at least one
non-whitespace character after the scheme, so a bare `http://` marker followed
by a space passes every stage and the output still contains `http://`. -/
theorem clean_web_content_keeps_bare_scheme :
    strHas (cleanWebContent
      "The bare marker http:// stays visible in this sentence output" 1000)
      "http://" = true := by decide

/-- C6 (amended): `_clean_web_content` returns at most `maxChars` characters;
its output contains no raw URL address (no `http://` or `https://` followed by
a non-whitespace character — a bare dangling scheme marker may survive, since
the removal regex is `https?://\S+`); the kept lines have pairwise-distinct
case-insensitive 60-character dedup keys, and every kept line is a stripped
input line of length at least 30 that matches no noise pattern and has at most
two `|` and at most two `—` characters. -/
theorem web_sanitizer_guarantees (text : String) (maxChars : Nat) :
    (cleanWebContent text maxChars).length ≤ maxChars ∧
    hasBadUrl (cleanWebContent text maxChars).toList = false ∧
    List.Pairwise (fun a b => lineKeyNorm a ≠ lineKeyNorm b)
      (keptGo (splitNl (replEscWs (sanitizeStage5 text.toList))) []) ∧
    (∀ st ∈ keptGo (splitNl (replEscWs (sanitizeStage5 text.toList))) [],
      ∃ line ∈ splitNl (replEscWs (sanitizeStage5 text.toList)),
        st = pyStripL line ∧ 30 ≤ st.length ∧ noiseHit st = false ∧
          countChar '|' st ≤ 2 ∧ countChar '—' st ≤ 2) := by
  refine ⟨?_, ?_, keptGo_keys_pairwise _ _, fun st hst => keptGo_mem _ _ st hst⟩
  · rw [cleanWebContent_eq]
    by_cases htext : text = ""
    · rw [if_pos htext]
      simp
    · rw [if_neg htext]
      exact sanitizeTail_length _ _
  · rw [cleanWebContent_eq]
    by_cases htext : text = ""
    · rw [if_pos htext]
      rfl
    · rw [if_neg htext]
      exact sanitizeTail_no_bad _ (stripUrlsF_no_bad _ _) _
end WebSearchClaims

section WebSearchClaims2

open WebSearch

/-- Witness: the sanitizer guarantees instantiated at a concrete input. -/
theorem web_sanitizer_guarantees_witness :
    (cleanWebContent "Veja https://example.com/page agora mesmo neste texto de teste"
      40).length ≤ 40 ∧
    hasBadUrl (cleanWebContent
      "Veja https://example.com/page agora mesmo neste texto de teste" 40).toList = false ∧
    List.Pairwise (fun a b => lineKeyNorm a ≠ lineKeyNorm b)
      (keptGo (splitNl (replEscWs (sanitizeStage5
        ("Veja https://example.com/page agora mesmo neste texto de teste" :
          String).toList))) []) ∧
    (∀ st ∈ keptGo (splitNl (replEscWs (sanitizeStage5
        ("Veja https://example.com/page agora mesmo neste texto de teste" :
          String).toList))) [],
      ∃ line ∈ splitNl (replEscWs (sanitizeStage5
        ("Veja https://example.com/page agora mesmo neste texto de teste" :
          String).toList)),
        st = pyStripL line ∧ 30 ≤ st.length ∧ noiseHit st = false ∧
          countChar '|' st ≤ 2 ∧ countChar '—' st ≤ 2) :=
  web_sanitizer_guarantees
    "Veja https://example.com/page agora mesmo neste texto de teste" 40

end WebSearchClaims2

namespace WebSearch

/-! Embedding of `_run_web_search` (`src/tools/web_search.py`) against the
`WebSearchResult` dataclass of `src/tools/base.py`.  The dataclass declares
exactly two fields, `summary` and `links` — it has no `answer` field. -/

/-- One entry of the Tavily `results` list (`r.get("url", "")`,
`r.get("content", "")`: absent keys default to the empty string). -/
structure TavilyItem where
  url : Option String
  content : Option String

/-- The Tavily response dict: `response.get("answer")` and
`response.get("results")`, either possibly absent or null. -/
structure TavilyResp where
  answer : Option String
  results : Option (List TavilyItem)

/-- `WebSearchResult` of `src/tools/base.py`: only `summary` and `links`. -/
structure WebSearchResult where
  summary : String
  links : List String

/-- The `TypeError` message raised by
`WebSearchResult(summary=..., links=..., answer=...)`: the dataclass accepts
no `answer` keyword. -/
def answerTypeErrorMsg : String :=
  "WebSearchResult.__init__() got an unexpected keyword argument 'answer'"

/-- The `except Exception` handler: rate/limit messages get the throttling
text, anything else the generic error summary; both drop the links. -/
def exceptResult (e : String) : WebSearchResult :=
  if strHas (pyLower e) "rate" || strHas (pyLower e) "limit" then
    ⟨"Limite de requisições atingido. Tente novamente em alguns instantes.", []⟩
  else
    ⟨"Erro na busca: " ++ String.mk (e.toList.take 100) ++
      ". Tente reformular a pergunta.", []⟩

/-- `links = [r.get("url", "") for r in results_list if r.get("url")][:5]`. -/
def searchLinks (results_list : List TavilyItem) : List String :=
  ((results_list.filter (fun r => r.url.getD "" ≠ "")).map
    (fun r => r.url.getD "")).take 5

/-- The no-answer path: sanitize each result's content, keep the non-empty
summaries, and join them with newlines. -/
def mkNoAnswerResult (response : TavilyResp) : WebSearchResult :=
  let results_list := response.results.getD []
  let summaries := (results_list.map
    (fun r => cleanWebContent (r.content.getD "") 1000)).filter (fun s => s ≠ "")
  ⟨if summaries ≠ [] then String.intercalate "\n" summaries
    else "Nenhum resultado encontrado.", searchLinks results_list⟩

/-- `_run_web_search`.  The API key and the `client.search` call are oracle
parameters (`search = .error e` models a raised exception with message `e`).
On a non-empty stripped answer the source constructs
`WebSearchResult(..., answer=tavily_answer)`; the dataclass has no such field,
so the construction raises `TypeError` inside the `try` block and the handler
returns the generic error result (the links computed before the raise are
discarded by the handler). -/
def run_web_search (apiKey : Option String) (search : Except String TavilyResp) :
    WebSearchResult :=
  if apiKey.getD "" = "" then
    ⟨"Web search is not configured. Set TAVILY_API_KEY in .env.", []⟩
  else
    match search with
    | .error e => exceptResult e
    | .ok response =>
      if pyStrip (response.answer.getD "") ≠ "" then
        exceptResult answerTypeErrorMsg
      else
        mkNoAnswerResult response

end WebSearch

section WebSearchAnswerClaims

open WebSearch

/-- C5: the claimed invariant fails in code.  `WebSearchResult` has no
`answer` field, so whenever Tavily returns a non-empty answer the keyword
construction raises `TypeError`: `_run_web_search` returns the generic error
summary `"Erro na busca: ..."` with an empty links list instead of a result
carrying the answer. -/
theorem run_web_search_answer_bug (key : String) (resp : TavilyResp)
    (hkey : key ≠ "") (hans : pyStrip (resp.answer.getD "") ≠ "") :
    (run_web_search (some key) (Except.ok resp)).links = [] ∧
    listStarts "Erro na busca:".toList
      (run_web_search (some key) (Except.ok resp)).summary.toList = true := by
  have heq : run_web_search (some key) (Except.ok resp) =
      exceptResult answerTypeErrorMsg := by
    unfold run_web_search
    rw [if_neg (by simpa using hkey)]
    show (if pyStrip (resp.answer.getD "") ≠ "" then
        exceptResult answerTypeErrorMsg else mkNoAnswerResult resp) =
      exceptResult answerTypeErrorMsg
    rw [if_pos hans]
  rw [heq]
  exact ⟨by decide, by decide⟩

/-- Witness: the bug theorem at a concrete key and a concrete Tavily response
carrying a non-empty answer. -/
theorem run_web_search_answer_bug_witness :
    (run_web_search (some "tvly-key")
      (Except.ok ⟨some "59 graus em Londrina.",
        some [⟨some "https://example.com", some "conteudo da pagina"⟩]⟩)).links = [] ∧
    listStarts "Erro na busca:".toList
      (run_web_search (some "tvly-key")
        (Except.ok ⟨some "59 graus em Londrina.",
          some [⟨some "https://example.com", some "conteudo da pagina"⟩]⟩)).summary.toList
      = true :=
  run_web_search_answer_bug "tvly-key" _ (by decide) (by decide)

end WebSearchAnswerClaims
